import Mathlib

/-!
# Verification of the cline-utils command-line wrappers

Shallow embedding of the three Python scripts
(extract_clip_lossless.py, extract_clip_h264_aac_sdr.py,
flac_to_mp3_320kbps.py) and proofs about them.

Modelling conventions:
- Python strings are Lean `String`s; character-level work happens on
  `String.data` (`List Char`).
- Python floats produced by time parsing are modelled as `ℚ` (every
  operation the scripts perform on them — `+`, `-`, `*`, comparison,
  truncation to `int` — is exact on the decimal literals involved).
- Python's built-in `float(s)` / `int(s)` conversions are modelled on
  their decimal fragment (optional sign, digits, optional fractional
  part, surrounding whitespace); exotic spellings (exponents,
  underscores, inf/nan) are not modelled.
- Raising an exception is modelled with `Except`: `.error` carries the
  kind of exception (`ValueError` messages as `String`s, other
  exception kinds as `PyErr`).
- Subprocess spawning is modelled by recording the argument list that
  would be spawned and reading the tool's exit code from an
  environment record.
-/

instance {ε α : Type _} [DecidableEq ε] [DecidableEq α] : DecidableEq (Except ε α)
  | .error x, .error y =>
    if h : x = y then .isTrue (by rw [h]) else .isFalse (by simp [h])
  | .error _, .ok _ => .isFalse (by simp)
  | .ok _, .error _ => .isFalse (by simp)
  | .ok x, .ok y =>
    if h : x = y then .isTrue (by rw [h]) else .isFalse (by simp [h])

/-- Kinds of Python exceptions (other than ValueError) that the
scripts can raise. -/
inductive PyErr where
  | nameError
  | typeError
  | keyError
  | attributeError
deriving DecidableEq, Repr

/-- ASCII whitespace recognised by Python's str.strip (space, tab,
newline, carriage return, vertical tab, form feed). -/
def isWS (c : Char) : Bool :=
  c.toNat = 32 || c.toNat = 9 || c.toNat = 10 || c.toNat = 13 || c.toNat = 11 || c.toNat = 12

/-- ASCII decimal digit test. -/
def isDig (c : Char) : Bool :=
  decide (48 ≤ c.toNat) && decide (c.toNat ≤ 57)

/-- Numeric value of an ASCII digit character. -/
def digitVal (c : Char) : ℕ := c.toNat - 48

/-- The ASCII digit character for a value below ten. -/
def digitChar (d : ℕ) : Char := Char.ofNat (48 + d)

/-- Value of a big-endian ASCII digit string. -/
def digitsToNat (cs : List Char) : ℕ :=
  cs.foldl (fun a c => 10 * a + digitVal c) 0

/-- Value of the fractional digit string after the decimal point. -/
def fracVal (cs : List Char) : ℚ :=
  cs.foldr (fun c a => ((digitVal c : ℚ) + a) / 10) 0

/-- Longest prefix of characters satisfying p, and the rest. -/
def spanP (p : Char → Bool) : List Char → List Char × List Char
  | [] => ([], [])
  | c :: t =>
    if p c then
      let r := spanP p t
      (c :: r.1, r.2)
    else ([], c :: t)

/-- Python str.split(sep) on a single-character separator: always
returns at least one (possibly empty) piece. -/
def pySplit (sep : Char) : List Char → List (List Char)
  | [] => [[]]
  | c :: t =>
    if c = sep then [] :: pySplit sep t
    else
      match pySplit sep t with
      | [] => [[c]]
      | h :: r => (c :: h) :: r

/-- Python str.strip() on the character list. -/
def pyStripChars (cs : List Char) : List Char :=
  (((cs.dropWhile isWS).reverse).dropWhile isWS).reverse

/-- Python str.strip(). -/
def pyStrip (s : String) : String := ⟨pyStripChars s.data⟩

/-- Python str.splitlines() restricted to the newline character. -/
def pySplitLinesChars (cs : List Char) : List (List Char) :=
  if cs.isEmpty then []
  else
    let ps := pySplit '\n' cs
    if ps.getLast? = some [] then ps.dropLast else ps

/-- Python str.splitlines(). -/
def pySplitLines (s : String) : List String :=
  (pySplitLinesChars s.data).map fun l => ⟨l⟩

/-- Helper of pySplitWS: current in-progress word is the accumulator
(reversed). -/
def pySplitWSChars : List Char → List Char → List (List Char)
  | [], acc => if acc.isEmpty then [] else [acc.reverse]
  | c :: t, acc =>
    if isWS c then
      if acc.isEmpty then pySplitWSChars t []
      else acc.reverse :: pySplitWSChars t []
    else pySplitWSChars t (c :: acc)

/-- Python str.split() with no argument: split on whitespace runs,
dropping empty pieces. -/
def pySplitWS (s : String) : List String :=
  (pySplitWSChars s.data []).map fun l => ⟨l⟩

/-- Truthiness of a Python Optional[str]: None and the empty string
are falsy. -/
def pyTruthy : Option String → Bool
  | none => false
  | some s => !s.isEmpty

/-- All-digit check with at least one digit; yields the numeric value.
Models the digit-string core of Python's int conversion. -/
def parseDigitsNat (cs : List Char) : Option ℕ :=
  if cs.isEmpty then none
  else if cs.all isDig then some (digitsToNat cs) else none

/-- Python int(s) on its decimal fragment: strip, optional sign,
digits. -/
def parsePyIntChars (cs : List Char) : Option ℤ :=
  match pyStripChars cs with
  | [] => none
  | c :: t =>
    if c = '+' then (parseDigitsNat t).map Int.ofNat
    else if c = '-' then (parseDigitsNat t).map fun n => -(n : ℤ)
    else (parseDigitsNat (c :: t)).map Int.ofNat

/-- Unsigned decimal literal: digits with an optional point and
fractional digits, at least one digit overall. -/
def parsePyUnsignedFloat (cs : List Char) : Option ℚ :=
  let r := spanP isDig cs
  match r.2 with
  | [] => if r.1.isEmpty then none else some (digitsToNat r.1 : ℚ)
  | c :: rest2 =>
    if c = '.' then
      let r2 := spanP isDig rest2
      if r2.2.isEmpty then
        if r.1.isEmpty && r2.1.isEmpty then none
        else some ((digitsToNat r.1 : ℚ) + fracVal r2.1)
      else none
    else none

/-- Python float(s) on its decimal fragment: strip, optional sign,
unsigned decimal literal. -/
def parsePyFloatChars (cs : List Char) : Option ℚ :=
  match pyStripChars cs with
  | [] => none
  | c :: t =>
    if c = '+' then parsePyUnsignedFloat t
    else if c = '-' then (parsePyUnsignedFloat t).map Neg.neg
    else parsePyUnsignedFloat (c :: t)

/-- extract_clip_lossless.py lines 29-58: parse an ffmpeg-style time
(plain seconds, MM:SS[.frac] or HH:MM:SS[.frac]) to seconds; a
ValueError is an .error with its message. -/
def _parse_time_to_seconds (value : String) : Except String ℚ :=
  match parsePyFloatChars (pyStripChars value.data) with
  | some q => .ok q
  | none =>
    match pySplit ':' (pyStripChars value.data) with
    | [p0, p1] =>
      match parsePyIntChars p0, parsePyFloatChars p1 with
      | some minutes, some seconds => .ok ((minutes : ℚ) * 60 + seconds)
      | _, _ => .error ("Invalid time format: " ++ value)
    | [p0, p1, p2] =>
      match parsePyIntChars p0, parsePyIntChars p1, parsePyFloatChars p2 with
      | some hours, some minutes, some seconds =>
        .ok ((hours : ℚ) * 3600 + (minutes : ℚ) * 60 + seconds)
      | _, _, _ => .error ("Invalid time format: " ++ value)
    | _ => .error ("Invalid time format: " ++ value)

/-- The shape test matching the parser's failure criterion in the
spec (wrong segment count, non-numeric component): after stripping,
either one float-numeric piece, or two pieces (int, float), or three
pieces (int, int, float). -/
def validTimeComponents (value : String) : Bool :=
  match pySplit ':' (pyStripChars value.data) with
  | [p] => (parsePyFloatChars p).isSome
  | [p0, p1] => (parsePyIntChars p0).isSome && (parsePyFloatChars p1).isSome
  | [p0, p1, p2] =>
    (parsePyIntChars p0).isSome && (parsePyIntChars p1).isSome && (parsePyFloatChars p2).isSome
  | _ => false

/-- Decimal digit characters of a number, accumulator style; the
first argument is fuel (any bound on the digit count works, and the
number itself is such a bound). -/
def natCharsAux : ℕ → ℕ → List Char → List Char
  | 0, _, acc => acc
  | fuel + 1, n, acc =>
    if n = 0 then acc
    else natCharsAux fuel (n / 10) (digitChar (n % 10) :: acc)

/-- Decimal digit characters of a natural number. -/
def natChars (n : ℕ) : List Char :=
  if n = 0 then ['0'] else natCharsAux n n []

/-- Python f-string 02d formatting: zero-padded to width two. -/
def pad2 (k : ℕ) : List Char :=
  if k < 10 then ['0', digitChar k] else natChars k

/-- extract_clip_lossless.py lines 61-69: format nonnegative seconds
as HH:MM:SS, truncating the fractional part (Python int()). -/
def _format_seconds_as_time (seconds : ℚ) : String :=
  let seconds := if seconds < 0 then 0 else seconds
  let total := seconds.floor.toNat
  let hh := total / 3600
  let mm := total % 3600 / 60
  let ss := total % 60
  ⟨pad2 hh ++ ':' :: (pad2 mm ++ ':' :: pad2 ss)⟩

/-! ## extract_clip_lossless.py: output-path helper, command builder, main -/

/-- The sanitize closure inside _default_output_path (lines 83-90):
strip, then replace each colon, slash and backslash by a dash and
remove spaces. -/
def sanitizeChars : List Char → List Char
  | [] => []
  | c :: t =>
    if c = ':' then '-' :: sanitizeChars t
    else if c = ' ' then sanitizeChars t
    else if c = '/' then '-' :: sanitizeChars t
    else if c = '\\' then '-' :: sanitizeChars t
    else c :: sanitizeChars t

/-- sanitize on strings (applied to the stripped input, as in the
source). -/
def sanitize (s : String) : String := ⟨sanitizeChars (pyStripChars s.data)⟩

/-- pathlib: the final path component (after the last slash). -/
def path_name (p : String) : String :=
  match (pySplit '/' p.data).getLast? with
  | some l => ⟨l⟩
  | none => p

/-- pathlib: everything up to and including the last slash (empty for
a bare file name). -/
def path_dir (p : String) : String :=
  ⟨(p.data.take (p.data.length - (path_name p).data.length))⟩

/-- Index of the extension dot of a file name per pathlib: the last
dot, provided it is neither the first nor past the last character. -/
def extDotIdx (name : List Char) : Option ℕ :=
  match (name.reverse).findIdx? (fun c => c = '.') with
  | none => none
  | some k =>
    let i := name.length - 1 - k
    if 0 < i ∧ i < name.length - 1 then some i else none

/-- pathlib Path.suffix. -/
def path_suffix (p : String) : String :=
  let name := (path_name p).data
  match extDotIdx name with
  | some i => ⟨name.drop i⟩
  | none => ""

/-- pathlib Path.stem. -/
def path_stem (p : String) : String :=
  let name := (path_name p).data
  match extDotIdx name with
  | some i => ⟨name.take i⟩
  | none => ⟨name⟩

/-- pathlib Path.with_name: replace the final component. -/
def path_with_name (p newName : String) : String :=
  path_dir p ++ newName

/-- extract_clip_lossless.py lines 80-101: default output path built
from the input path and a sanitized time tag. -/
def _default_output_path (input_path start : String) (end_ duration : Option String) : String :=
  let start_s := sanitize start
  let tag :=
    if pyTruthy duration then start_s ++ "_d" ++ sanitize (duration.getD "")
    else start_s ++ "_to_" ++ sanitize (end_.getD "")
  let suffix := if (path_suffix input_path).isEmpty then ".mkv" else path_suffix input_path
  path_with_name input_path (path_stem input_path ++ "_clip_" ++ tag ++ suffix)

/-- extract_clip_lossless.py lines 134-142: the trim flags.  If a
duration is given it is passed through; else with an end time the
clip length end - start is computed (either parse may raise
ValueError, end first) and must be strictly positive. -/
def lossless_trim_args (start : String) (end_ duration : Option String) :
    Except String (List String) :=
  if pyTruthy duration then .ok ["-t", duration.getD ""]
  else if pyTruthy end_ then
    match _parse_time_to_seconds (end_.getD ""), _parse_time_to_seconds start with
    | .ok pe, .ok ps =>
      if pe - ps ≤ 0 then .error "End time must be greater than start time."
      else .ok ["-t", _format_seconds_as_time (pe - ps)]
    | .error msg, _ => .error msg
    | .ok _, .error msg => .error msg
  else .ok []

/-- extract_clip_lossless.py lines 104-171: build the ffmpeg argument
list; raising ValueError is .error.  The source appends to cmd
step by step; the appends are written out in the same order here. -/
def build_ffmpeg_command (ffmpeg input_file start : String) (end_ duration : Option String)
    (output_file : String) (fast_seek map_all_streams : Bool)
    (audio_index : Option ℤ) (audio_lang : Option String)
    (reset_timestamps : Bool) : Except String (List String) :=
  match lossless_trim_args start end_ duration with
  | .error msg => .error msg
  | .ok trim =>
    .ok ([ffmpeg, "-hide_banner"]
    ++ (if fast_seek then ["-ss", start] else [])
    ++ ["-fflags", "+genpts"]
    ++ ["-i", input_file]
    ++ (if !fast_seek then ["-ss", start] else [])
    ++ trim
    ++ (if map_all_streams then ["-map", "0"]
        else if audio_index.isSome || audio_lang.isSome then
          ["-map", "0:v:0"]
          ++ (match audio_index with
              | some i => ["-map", "0:a:" ++ toString i]
              | none => ["-map", "0:a:m:language:" ++ audio_lang.getD ""])
        else [])
    ++ ["-c", "copy"]
    ++ (if reset_timestamps then ["-reset_timestamps", "1"] else [])
    ++ ["-avoid_negative_ts", "make_zero"]
    ++ ["-y", output_file])

/-- Parsed command-line arguments of extract_clip_lossless.py
(argparse guarantees: input and start present, end xor duration
present; that plumbing is not modelled). -/
structure LosslessArgs where
  input : String
  start : String
  end_ : Option String
  duration : Option String
  output : Option String
  fast_seek : Bool
  accurate_seek : Bool
  map_all : Bool
  main_only : Bool
  audio_index : Option ℤ
  audio_lang : Option String
  keep_timestamps : Bool

/-- Environment of one run of the lossless script: whether the input
file exists, the resolved ffmpeg path (none when not in PATH), and
the exit code ffmpeg would return. -/
structure LosslessEnv where
  input_exists : Bool
  ffmpeg_path : Option String
  returncode : ℤ

/-- extract_clip_lossless.py lines 174-277, after argument parsing:
the returned int is main's return value, paired with the list of
spawned subprocess argument lists; a SystemExit 2 from _which_or_die
is modelled as the value 2 (the process exit code is the same); an
uncaught ValueError from build_ffmpeg_command is .error. -/
def lossless_main (a : LosslessArgs) (env : LosslessEnv) : Except String (ℤ × List (List String)) :=
  if !env.input_exists then .ok (2, [])
  else
    let output_path := match a.output with
      | some o => o
      | none => _default_output_path a.input a.start a.end_ a.duration
    match env.ffmpeg_path with
    | none => .ok (2, [])
    | some ffmpeg =>
      if a.fast_seek && a.accurate_seek then .ok (2, [])
      else if (match a.audio_index with | some i => decide (i < 0) | none => false) then .ok (2, [])
      else if a.audio_index.isSome && pyTruthy a.audio_lang then .ok (2, [])
      else
        let fast_seek := !a.accurate_seek
        let map_all_streams := !a.main_only || a.map_all
        if map_all_streams && (a.audio_index.isSome || pyTruthy a.audio_lang) then .ok (2, [])
        else do
          let cmd ← build_ffmpeg_command ffmpeg a.input a.start a.end_ a.duration output_path
            fast_seek map_all_streams a.audio_index a.audio_lang (!a.keep_timestamps)
          .ok (env.returncode, [cmd])

/-- Process exit code of extract_clip_lossless.py: the script raises
SystemExit(main()); an uncaught exception exits with code 1. -/
def lossless_script_exit (a : LosslessArgs) (env : LosslessEnv) : ℤ :=
  match lossless_main a env with
  | .ok (c, _) => c
  | .error _ => 1

/-! ## extract_clip_h264_aac_sdr.py -/

/-- Module-level encoding constants (lines 12-15). -/
def VIDEO_ENCODING : String := "-c:v libx264 -preset veryfast -crf 18 -pix_fmt yuv420p"

def AUDIO_ENCODING : String := "-c:a aac -b:a 192k"

def HDR_TONEMAPPING2 : String := "zscale=t=linear:npl=100,zscale=transfer=linear:primaries=bt2020:matrix=bt2020nc, tonemap=mobius:param=0.5, zscale=transfer=bt709:primaries=bt709:matrix=bt709"

def HDR_TONEMAPPING : String := "zscale=t=linear:npl=100,format=gbrpf32le,zscale=p=bt709,tonemap=tonemap=mobius:desat=2,zscale=t=bt709:m=bt709:r=tv,format=yuv420p"

/-- A Python value that is either an int or a string: get_file_info
returns 2 (an int) when ffprobe is missing and probe stdout (a str)
otherwise. -/
inductive PyVal where
  | int (i : ℤ)
  | str (s : String)
deriving DecidableEq

/-- Environment of one run of the re-encoding script. -/
structure H264Env where
  ffprobe_path : Option String
  probe_stdout : String
  ffmpeg_path : Option String
  returncode : ℤ

/-- extract_clip_h264_aac_sdr.py lines 17-27. -/
def get_file_info (env : H264Env) : PyVal :=
  match env.ffprobe_path with
  | none => .int 2
  | some _ => .str env.probe_stdout

/-- Python "=" in line. -/
def containsEq (l : String) : Bool := l.data.contains '='

/-- Loop state of split_streams: in_stream and current_block are
local variables that are unbound (None here) until first assigned;
reading an unbound one raises NameError. -/
structure SplitState where
  in_stream : Option Bool
  current_block : Option (List String)
  stream_blocks : List (List String)
deriving DecidableEq

/-- One iteration of the first loop of split_streams (lines 33-42). -/
def split_step (st : SplitState) (line : String) : Except PyErr SplitState :=
  if pyStrip line = "[STREAM]" then
    .ok { st with in_stream := some true, current_block := some [] }
  else if pyStrip line = "[/STREAM]" then
    match st.current_block with
    | none => .error .nameError
    | some cb =>
      .ok { st with
            in_stream := some false
            stream_blocks := (if !cb.isEmpty then st.stream_blocks ++ [cb] else st.stream_blocks) }
  else
    match st.in_stream with
    | none => .error .nameError
    | some b =>
      if b && containsEq line then
        match st.current_block with
        | none => .error .nameError
        | some cb => .ok { st with current_block := some (cb ++ [pyStrip line]) }
      else .ok st

/-- First loop of split_streams over the already-split lines. -/
def split_streams_lines (lines : List String) : Except PyErr (List (List String)) := do
  let st ← lines.foldlM split_step ⟨none, none, []⟩
  pure st.stream_blocks

/-- Python line.split(sep, 1): split at the first occurrence only. -/
def splitFirstChars (sep : Char) : List Char → Option (List Char × List Char)
  | [] => none
  | c :: t =>
    if c = sep then some ([], t)
    else
      match splitFirstChars sep t with
      | some r => some (c :: r.1, r.2)
      | none => none

/-- Python dict assignment d[k] = v: replace in place or append. -/
def dictInsert (d : List (String × String)) (k v : String) : List (String × String) :=
  match d with
  | [] => [(k, v)]
  | kv :: t => if kv.1 = k then (k, v) :: t else kv :: dictInsert t k v

/-- Second loop of split_streams (lines 45-51): one block of kept
lines to a dict. -/
def parse_block (block : List String) : List (String × String) :=
  block.foldl
    (fun d line =>
      if containsEq line then
        match splitFirstChars '=' line.data with
        | some kv => dictInsert d ⟨kv.1⟩ ⟨kv.2⟩
        | none => d
      else d)
    []

/-- extract_clip_h264_aac_sdr.py lines 29-53. -/
def split_streams (file_info : String) : Except PyErr (List (List (String × String))) := do
  let blocks ← split_streams_lines (pySplitLines file_info)
  pure (blocks.map parse_block)

/-- The lines of one well-formed probe block: opening marker, body,
closing marker. -/
def renderBlock (body : List String) : List String :=
  "[STREAM]" :: body ++ ["[/STREAM]"]

/-- The lines of one block that split_streams keeps: those containing
an equals sign, stripped. -/
def keepLines (body : List String) : List String :=
  (body.filter containsEq).map pyStrip

/-- What the first loop of split_streams accumulates over a sequence
of well-formed blocks: the kept lines of each block, dropping blocks
that kept nothing. -/
def blockResults (blocks : List (List String)) : List (List String) :=
  (blocks.map keepLines).filter (fun b => !b.isEmpty)

/-- split_streams applied to whatever get_file_info returned; an int
has no splitlines attribute. -/
def split_streams_dyn : PyVal → Except PyErr (List (List (String × String)))
  | .int _ => .error .attributeError
  | .str s => split_streams s

/-- Python d[k] on a dict: KeyError when the key is missing. -/
def dictGet (d : List (String × String)) (k : String) : Except PyErr String :=
  match d.find? (fun kv => kv.1 == k) with
  | some kv => .ok kv.2
  | none => .error .keyError

/-- Substring test, Python "pat in s". -/
def startsWithChars : List Char → List Char → Bool
  | [], _ => true
  | _ :: _, [] => false
  | p :: ps, c :: cs => p == c && startsWithChars ps cs

def containsSubChars (pat : List Char) : List Char → Bool
  | [] => pat.isEmpty
  | c :: t => startsWithChars pat (c :: t) || containsSubChars pat t

def strContains (s pat : String) : Bool := containsSubChars pat.data s.data

/-- The loop in main, lines 135-139: first stream whose codec_type is
"video"; a stream without the key raises KeyError. -/
def find_video_stream : List (List (String × String)) → Except PyErr (Option (List (String × String)))
  | [] => .ok none
  | s :: rest =>
    match dictGet s "codec_type" with
    | .error e => .error e
    | .ok ct => if ct = "video" then .ok (some s) else find_video_stream rest

/-- extract_clip_h264_aac_sdr.py lines 55-59.  The argument is the
value of main's video_stream variable, which is None when no video
stream was found; subscripting None raises TypeError, a missing key
raises KeyError, and the conjunction short-circuits exactly as the
Python and does. -/
def is_hdr (video_stream : Option (List (String × String))) : Except PyErr Bool :=
  match video_stream with
  | none => .error .typeError
  | some d =>
    match dictGet d "color_space" with
    | .error e => .error e
    | .ok cs =>
      if strContains cs "bt2020" then
        match dictGet d "color_primaries" with
        | .error e => .error e
        | .ok cp => .ok (strContains cp "bt2020")
      else .ok false

/-- The command list built by run_ffmpeg (lines 67-88). -/
def run_ffmpeg_cmd (ffmpeg filename : String) (start_time duration end_time : Option String)
    (hdr : Bool) (output_file : Option String) : List String :=
  [ffmpeg]
  ++ (if pyTruthy start_time then ["-ss", start_time.getD ""] else [])
  ++ ["-i", filename]
  ++ (if pyTruthy duration then ["-t", duration.getD ""]
      else if pyTruthy end_time then ["-to", end_time.getD ""] else [])
  ++ (if hdr then ["-vf", HDR_TONEMAPPING] else [])
  ++ pySplitWS VIDEO_ENCODING
  ++ pySplitWS AUDIO_ENCODING
  ++ [match output_file with | some o => o | none => "output.mp4"]

/-- extract_clip_h264_aac_sdr.py lines 61-94: returns run_ffmpeg's
return value (2 when ffmpeg is missing, else the tool's exit code)
together with the spawned command, if any. -/
def run_ffmpeg (env : H264Env) (filename : String) (start_time duration end_time : Option String)
    (hdr : Bool) (output_file : Option String) : ℤ × Option (List String) :=
  match env.ffmpeg_path with
  | none => (2, none)
  | some f => (env.returncode, some (run_ffmpeg_cmd f filename start_time duration end_time hdr output_file))

/-- Parsed flags of extract_clip_h264_aac_sdr.py's hand-rolled
argument loop (lines 104-125). -/
structure H264Args where
  filename : String
  start_time : Option String
  end_time : Option String
  duration : Option String
  output_file : Option String

/-- extract_clip_h264_aac_sdr.py lines 97-143 after argument
collection.  The Option ℤ result is main's Python return value:
some 2 on the usage error, none (Python None) when main falls
through after calling run_ffmpeg — whose result it discards, as the
source does on line 143. -/
def h264_main (a : H264Args) (env : H264Env) : Except PyErr (Option ℤ) :=
  if a.start_time.isNone || (a.end_time.isNone && a.duration.isNone) then .ok (some 2)
  else do
    let file_info := get_file_info env
    let streams ← split_streams_dyn file_info
    let video_stream ← find_video_stream streams
    let hdr ← is_hdr video_stream
    let _ := run_ffmpeg env a.filename a.start_time a.duration a.end_time hdr a.output_file
    pure none

/-- Process exit of extract_clip_h264_aac_sdr.py: the module calls
main() without sys.exit, so a normal return exits 0 and an uncaught
exception exits 1. -/
def h264_script_exit (a : H264Args) (env : H264Env) : ℤ :=
  match h264_main a env with
  | .ok _ => 0
  | .error _ => 1

/-! ## flac_to_mp3_320kbps.py -/

/-- Result of one ffmpeg transcode subprocess: success, a non-zero
exit (with or without a partially written output file), or a
keyboard interrupt during the call (ditto). -/
inductive RunOutcome where
  | success
  | failed (wrote_output : Bool)
  | interrupted (wrote_output : Bool)
deriving DecidableEq

/-- Environment of a batch run: the outcome of converting each source
path. -/
structure BatchEnv where
  outcome : String → RunOutcome

/-- Filesystem-and-log state threaded through the batch: the set of
existing files and the spawned subprocess argument lists, in order.
(Directory creation is plumbing and not tracked.) -/
structure BatchState where
  fs : List String
  spawned : List (List String)
deriving DecidableEq

/-- The fixed argument list of ffmpeg_convert (lines 9-21). -/
def mp3_cmd (flac_file mp3_file : String) : List String :=
  ["ffmpeg", "-y", "-i", flac_file, "-map", "0:a", "-map", "0:v?",
   "-c:a", "libmp3lame", "-b:a", "320k", "-c:v", "mjpeg",
   "-disposition:v", "attached_pic", "-map_metadata", "0",
   "-write_id3v2", "1", mp3_file]

/-- flac_to_mp3_320kbps.py lines 8-29: spawn the transcode; on
CalledProcessError delete the partial output if it exists; a
KeyboardInterrupt (not caught here) is reported in the Bool. -/
def ffmpeg_convert (env : BatchEnv) (st : BatchState) (flac_file mp3_file : String) :
    BatchState × Bool :=
  let st := { st with spawned := st.spawned ++ [mp3_cmd flac_file mp3_file] }
  match env.outcome flac_file with
  | .success => ({ st with fs := st.fs ++ [mp3_file] }, false)
  | .failed wrote =>
    let fs1 := if wrote then st.fs ++ [mp3_file] else st.fs
    ({ st with fs := if fs1.contains mp3_file then fs1.erase mp3_file else fs1 }, false)
  | .interrupted wrote =>
    ({ st with fs := if wrote then st.fs ++ [mp3_file] else st.fs }, true)

/-- Python os.path.join for the relative components used here. -/
def pathJoin (a b : String) : String := a ++ "/" ++ b

/-- Python os.path.splitext on a bare file name: the extension starts
at the last dot, but leading dots never start an extension. -/
def py_splitext (name : String) : String × String :=
  let cs := name.data
  let lead := (cs.takeWhile (fun c => c = '.')).length
  let rest := cs.drop lead
  match (rest.reverse).findIdx? (fun c => c = '.') with
  | none => (name, "")
  | some k =>
    let i := lead + (rest.length - 1 - k)
    (⟨cs.take i⟩, ⟨cs.drop i⟩)

/-- Python str.lower restricted to ASCII. -/
def pyLower (s : String) : String := ⟨s.data.map Char.toLower⟩

def endsWithChars (pat s : List Char) : Bool := startsWithChars pat.reverse s.reverse

/-- file.lower().endswith('.flac') -/
def isFlacName (file : String) : Bool := endsWithChars ".flac".data (pyLower file).data

/-- Body of the inner loop of convert (lines 37-60) for one directory
entry file; rel is os.path.relpath(root, input_dir).  The Bool is
true when a KeyboardInterrupt is propagating (after the handler
deleted the in-flight partial output). -/
def convert_one (env : BatchEnv) (output_dir rel root : String) (st : BatchState) (file : String) :
    BatchState × Bool :=
  if isFlacName file then
    let flac_path := pathJoin root file
    let mp3_dir := pathJoin output_dir rel
    let mp3_file := (py_splitext file).1 ++ ".mp3"
    let mp3_path := pathJoin mp3_dir mp3_file
    if st.fs.contains mp3_path then (st, false)
    else
      match ffmpeg_convert env st flac_path mp3_path with
      | (st2, true) =>
        ({ st2 with fs := if st2.fs.contains mp3_path then st2.fs.erase mp3_path else st2.fs }, true)
      | (st2, false) => (st2, false)
  else (st, false)

/-- The inner loop over one directory's files; stops early only when
an interrupt propagates. -/
def convert_files (env : BatchEnv) (output_dir rel root : String) (st : BatchState) :
    List String → BatchState × Bool
  | [] => (st, false)
  | f :: rest =>
    match convert_one env output_dir rel root st f with
    | (st2, true) => (st2, true)
    | (st2, false) => convert_files env output_dir rel root st2 rest

/-- flac_to_mp3_320kbps.py lines 32-60: walk entries are
(root, relpath root input_dir, files). -/
def convert (env : BatchEnv) (output_dir : String) (st : BatchState) :
    List (String × String × List String) → BatchState × Bool
  | [] => (st, false)
  | (root, rel, files) :: rest =>
    match convert_files env output_dir rel root st files with
    | (st2, true) => (st2, true)
    | (st2, false) => convert env output_dir st2 rest

/-! ## Toolkit: digits, spans, splits, strips -/

theorem isDig_not_ws {c : Char} (h : isDig c = true) : isWS c = false := by
  simp only [isDig, Bool.and_eq_true, decide_eq_true_eq] at h
  simp only [isWS, Bool.or_eq_false_iff, decide_eq_false_iff_not]
  omega

theorem ne_of_isDig {c d : Char} (h : isDig c = true) (hd : isDig d = false) : c ≠ d := by
  intro e; rw [e, hd] at h; cases h

theorem spanP_all {p : Char → Bool} {ds rest : List Char}
    (hds : ∀ c ∈ ds, p c = true)
    (hrest : ∀ c, rest.head? = some c → p c = false) :
    spanP p (ds ++ rest) = (ds, rest) := by
  induction ds with
  | nil =>
    cases rest with
    | nil => rfl
    | cons c t => simp [spanP, hrest c rfl]
  | cons d ds ih =>
    have hd : p d = true := hds d (by simp)
    have hih := ih (fun c hc => hds c (by simp [hc]))
    simp [spanP, hd, hih]

theorem spanP_join (p : Char → Bool) (l : List Char) :
    (spanP p l).1 ++ (spanP p l).2 = l := by
  induction l with
  | nil => rfl
  | cons c t ih =>
    by_cases h : p c = true
    · simp [spanP, h, ih]
    · simp [spanP, Bool.eq_false_iff.mpr h]

theorem spanP_fst_all (p : Char → Bool) (l : List Char) :
    ∀ c ∈ (spanP p l).1, p c = true := by
  induction l with
  | nil => simp [spanP]
  | cons c t ih =>
    by_cases h : p c = true
    · simp only [spanP, h, if_true]
      intro x hx
      rcases List.mem_cons.mp hx with h1 | h1
      · rw [h1]; exact h
      · exact ih x h1
    · simp [spanP, Bool.eq_false_iff.mpr h]

theorem spanP_snd_head (p : Char → Bool) (l : List Char) :
    ∀ c, (spanP p l).2.head? = some c → p c = false := by
  induction l with
  | nil => simp [spanP]
  | cons c t ih =>
    by_cases h : p c = true
    · simpa [spanP, h] using ih
    · intro x hx
      simp [spanP, Bool.eq_false_iff.mpr h] at hx
      rw [← hx]
      exact Bool.eq_false_iff.mpr h

theorem pySplit_ne_nil (sep : Char) (l : List Char) : pySplit sep l ≠ [] := by
  induction l with
  | nil => simp [pySplit]
  | cons c t ih =>
    by_cases h : c = sep
    · simp [pySplit, h]
    · simp only [pySplit, if_neg h]
      cases hm : pySplit sep t with
      | nil => simp
      | cons a r => simp

theorem pySplit_no_sep {sep : Char} {l : List Char} (h : ∀ c ∈ l, c ≠ sep) :
    pySplit sep l = [l] := by
  induction l with
  | nil => rfl
  | cons c t ih =>
    have hc : c ≠ sep := h c (by simp)
    have hih := ih (fun x hx => h x (by simp [hx]))
    simp [pySplit, hc, hih]

theorem pySplit_append {sep : Char} {a b : List Char} (h : ∀ c ∈ a, c ≠ sep) :
    pySplit sep (a ++ sep :: b) = a :: pySplit sep b := by
  induction a with
  | nil => simp [pySplit]
  | cons c t ih =>
    have hc : c ≠ sep := h c (by simp)
    have hih := ih (fun x hx => h x (by simp [hx]))
    simp [pySplit, hc, hih]

theorem dropWhile_all_false {p : Char → Bool} {l : List Char}
    (h : ∀ c ∈ l, p c = false) : l.dropWhile p = l := by
  cases l with
  | nil => rfl
  | cons c t => simp [List.dropWhile, h c (by simp)]

theorem pyStripChars_noop {l : List Char} (h : ∀ c ∈ l, isWS c = false) :
    pyStripChars l = l := by
  unfold pyStripChars
  rw [dropWhile_all_false h]
  rw [dropWhile_all_false (fun c hc => h c (List.mem_reverse.mp hc))]
  exact List.reverse_reverse l

theorem mem_dropWhile {p : Char → Bool} {c : Char} {l : List Char}
    (hc : c ∈ l) (hp : p c = false) : c ∈ l.dropWhile p := by
  induction l with
  | nil => cases hc
  | cons a t ih =>
    by_cases ha : p a = true
    · rcases List.mem_cons.mp hc with h1 | h1
      · rw [h1] at hp; rw [hp] at ha; cases ha
      · simpa [List.dropWhile, ha] using ih h1
    · simpa [List.dropWhile, Bool.eq_false_iff.mpr ha] using hc

theorem mem_pyStripChars {c : Char} {l : List Char} (hc : c ∈ l) (hw : isWS c = false) :
    c ∈ pyStripChars l := by
  unfold pyStripChars
  rw [List.mem_reverse]
  exact mem_dropWhile (List.mem_reverse.mpr (mem_dropWhile hc hw)) hw

/-! ## Toolkit: the numeric conversions on digit strings -/

theorem parseDigitsNat_digits {ds : List Char} (h1 : ds ≠ [])
    (h2 : ∀ c ∈ ds, isDig c = true) : parseDigitsNat ds = some (digitsToNat ds) := by
  cases ds with
  | nil => exact absurd rfl h1
  | cons c t =>
    simp only [parseDigitsNat, List.isEmpty_cons, Bool.false_eq_true, if_false]
    rw [if_pos (List.all_eq_true.mpr (fun x hx => h2 x hx))]

theorem parsePyIntChars_digits {ds : List Char} (h1 : ds ≠ [])
    (h2 : ∀ c ∈ ds, isDig c = true) :
    parsePyIntChars ds = some (Int.ofNat (digitsToNat ds)) := by
  have hs : pyStripChars ds = ds := pyStripChars_noop (fun c hc => isDig_not_ws (h2 c hc))
  cases ds with
  | nil => exact absurd rfl h1
  | cons c t =>
    have hc := h2 c (by simp)
    simp only [parsePyIntChars, hs]
    rw [if_neg (ne_of_isDig hc (by decide)), if_neg (ne_of_isDig hc (by decide)),
      parseDigitsNat_digits h1 h2]
    rfl

theorem parsePyUnsignedFloat_digits {ds : List Char} (h1 : ds ≠ [])
    (h2 : ∀ c ∈ ds, isDig c = true) :
    parsePyUnsignedFloat ds = some (digitsToNat ds : ℚ) := by
  have hspan : spanP isDig ds = (ds, []) := by
    have := @spanP_all _ _ [] h2 (fun c hc => by simp at hc)
    simpa using this
  cases ds with
  | nil => exact absurd rfl h1
  | cons c t => simp [parsePyUnsignedFloat, hspan]

theorem parsePyUnsignedFloat_digits_frac {ds fs : List Char} (h1 : ds ≠ [])
    (h2 : ∀ c ∈ ds, isDig c = true) (h3 : ∀ c ∈ fs, isDig c = true) :
    parsePyUnsignedFloat (ds ++ '.' :: fs) = some ((digitsToNat ds : ℚ) + fracVal fs) := by
  have hspan1 : spanP isDig (ds ++ '.' :: fs) = (ds, '.' :: fs) :=
    spanP_all h2 (fun c hc => by simp at hc; rw [← hc]; decide)
  have hspan2 : spanP isDig fs = (fs, []) := by
    have := @spanP_all _ _ [] h3 (fun c hc => by simp at hc)
    simpa using this
  cases ds with
  | nil => exact absurd rfl h1
  | cons c t =>
    simp only [List.cons_append] at hspan1
    simp [parsePyUnsignedFloat, hspan1, hspan2]

theorem parsePyFloatChars_digits {ds : List Char} (h1 : ds ≠ [])
    (h2 : ∀ c ∈ ds, isDig c = true) :
    parsePyFloatChars ds = some (digitsToNat ds : ℚ) := by
  have hs : pyStripChars ds = ds := pyStripChars_noop (fun c hc => isDig_not_ws (h2 c hc))
  cases ds with
  | nil => exact absurd rfl h1
  | cons c t =>
    have hc := h2 c (by simp)
    simp only [parsePyFloatChars, hs]
    rw [if_neg (ne_of_isDig hc (by decide)), if_neg (ne_of_isDig hc (by decide)),
      parsePyUnsignedFloat_digits h1 h2]

theorem parsePyFloatChars_digits_frac {ds fs : List Char} (h1 : ds ≠ [])
    (h2 : ∀ c ∈ ds, isDig c = true) (h3 : ∀ c ∈ fs, isDig c = true) :
    parsePyFloatChars (ds ++ '.' :: fs) = some ((digitsToNat ds : ℚ) + fracVal fs) := by
  cases ds with
  | nil => exact absurd rfl h1
  | cons c t =>
    have hc := h2 c (by simp)
    have hws : ∀ x ∈ c :: (t ++ '.' :: fs), isWS x = false := by
      intro x hx
      rcases List.mem_cons.mp hx with h | h
      · rw [h]; exact isDig_not_ws hc
      · rcases List.mem_append.mp h with h | h
        · exact isDig_not_ws (h2 x (by simp [h]))
        · rcases List.mem_cons.mp h with h | h
          · rw [h]; decide
          · exact isDig_not_ws (h3 x h)
    have hs : pyStripChars (c :: (t ++ '.' :: fs)) = c :: (t ++ '.' :: fs) :=
      pyStripChars_noop hws
    have hUF : parsePyUnsignedFloat (c :: (t ++ '.' :: fs))
        = some ((digitsToNat (c :: t) : ℚ) + fracVal fs) := by
      have := @parsePyUnsignedFloat_digits_frac (c :: t) _ h1 h2 h3
      simpa [List.cons_append] using this
    rw [List.cons_append]
    simp only [parsePyFloatChars, hs]
    rw [if_neg (ne_of_isDig hc (by decide : isDig '+' = false)),
      if_neg (ne_of_isDig hc (by decide : isDig '-' = false)), hUF]

theorem parsePyUnsignedFloat_colon {l : List Char} (h : ':' ∈ l) :
    parsePyUnsignedFloat l = none := by
  have hjoin := spanP_join isDig l
  have h2 : ':' ∈ (spanP isDig l).2 := by
    have hmem : ':' ∈ (spanP isDig l).1 ++ (spanP isDig l).2 := by rw [hjoin]; exact h
    rcases List.mem_append.mp hmem with h1 | h1
    · exact absurd (spanP_fst_all isDig l ':' h1) (by decide)
    · exact h1
  unfold parsePyUnsignedFloat
  cases hr : (spanP isDig l).2 with
  | nil => rw [hr] at h2; cases h2
  | cons c rest2 =>
    rw [hr] at h2
    by_cases hc : c = '.'
    · subst hc
      have h3 : ':' ∈ rest2 := (List.mem_cons.mp h2).resolve_left (by decide)
      have h4 : ':' ∈ (spanP isDig rest2).2 := by
        have hmem : ':' ∈ (spanP isDig rest2).1 ++ (spanP isDig rest2).2 := by
          rw [spanP_join]; exact h3
        rcases List.mem_append.mp hmem with h1 | h1
        · exact absurd (spanP_fst_all isDig rest2 ':' h1) (by decide)
        · exact h1
      cases hr2 : (spanP isDig rest2).2 with
      | nil => rw [hr2] at h4; cases h4
      | cons d rest3 => simp [hr, hr2]
    · simp [hr, hc]

theorem parsePyFloatChars_colon {l : List Char} (h : ':' ∈ l) :
    parsePyFloatChars l = none := by
  have hs : ':' ∈ pyStripChars l := mem_pyStripChars h (by decide)
  cases hst : pyStripChars l with
  | nil => rw [hst] at hs; cases hs
  | cons c t =>
    rw [hst] at hs
    simp only [parsePyFloatChars, hst]
    by_cases h1 : c = '+'
    · subst h1
      have ht : ':' ∈ t := (List.mem_cons.mp hs).resolve_left (by decide)
      simp [parsePyUnsignedFloat_colon ht]
    · by_cases h2 : c = '-'
      · subst h2
        have ht : ':' ∈ t := (List.mem_cons.mp hs).resolve_left (by decide)
        simp [h1, parsePyUnsignedFloat_colon ht]
      · simp [h1, h2, parsePyUnsignedFloat_colon hs]

/-! ## The time parser on each accepted shape -/

theorem not_mem_all_ne {l : List Char} {d : Char} (h : d ∉ l) : ∀ c ∈ l, c ≠ d :=
  fun _ hc e => by subst e; exact h hc

theorem parse_time_plain {ds : List Char} (h1 : ds ≠ [])
    (h2 : ∀ c ∈ ds, isDig c = true) :
    _parse_time_to_seconds ⟨ds⟩ = .ok (digitsToNat ds : ℚ) := by
  have hs : pyStripChars ds = ds := pyStripChars_noop (fun c hc => isDig_not_ws (h2 c hc))
  simp [_parse_time_to_seconds, hs, parsePyFloatChars_digits h1 h2]

theorem parse_time_plain_frac {ds fs : List Char} (h1 : ds ≠ [])
    (h2 : ∀ c ∈ ds, isDig c = true) (h3 : ∀ c ∈ fs, isDig c = true) :
    _parse_time_to_seconds ⟨ds ++ '.' :: fs⟩ = .ok ((digitsToNat ds : ℚ) + fracVal fs) := by
  have hws : ∀ c ∈ ds ++ '.' :: fs, isWS c = false := by
    intro c hc
    rcases List.mem_append.mp hc with h | h
    · exact isDig_not_ws (h2 c h)
    · rcases List.mem_cons.mp h with h | h
      · rw [h]; decide
      · exact isDig_not_ws (h3 c h)
  have hs : pyStripChars (ds ++ '.' :: fs) = ds ++ '.' :: fs := pyStripChars_noop hws
  simp [_parse_time_to_seconds, hs, parsePyFloatChars_digits_frac h1 h2 h3]

theorem parse_time_ms_gen {ms sl : List Char} {sv : ℚ} (hm1 : ms ≠ [])
    (hm2 : ∀ c ∈ ms, isDig c = true)
    (hsv : parsePyFloatChars sl = some sv)
    (hsws : ∀ c ∈ sl, isWS c = false)
    (hscolon : ':' ∉ sl) :
    _parse_time_to_seconds ⟨ms ++ ':' :: sl⟩ = .ok ((digitsToNat ms : ℚ) * 60 + sv) := by
  have hws : ∀ c ∈ ms ++ ':' :: sl, isWS c = false := by
    intro c hc
    rcases List.mem_append.mp hc with h | h
    · exact isDig_not_ws (hm2 c h)
    · rcases List.mem_cons.mp h with h | h
      · rw [h]; decide
      · exact hsws c h
  have hstrip : pyStripChars (ms ++ ':' :: sl) = ms ++ ':' :: sl := pyStripChars_noop hws
  have hfl : parsePyFloatChars (ms ++ ':' :: sl) = none :=
    parsePyFloatChars_colon (by simp)
  have hsplit : pySplit ':' (ms ++ ':' :: sl) = [ms, sl] := by
    rw [pySplit_append (fun c hc => ne_of_isDig (hm2 c hc) (by decide))]
    rw [pySplit_no_sep (not_mem_all_ne hscolon)]
  simp only [_parse_time_to_seconds, hstrip, hfl, hsplit,
    parsePyIntChars_digits hm1 hm2, hsv, Except.ok.injEq]
  push_cast [Int.ofNat_eq_natCast]
  ring

theorem parse_time_hms_gen {hrs ms sl : List Char} {sv : ℚ} (hh1 : hrs ≠ [])
    (hh2 : ∀ c ∈ hrs, isDig c = true) (hm1 : ms ≠ [])
    (hm2 : ∀ c ∈ ms, isDig c = true)
    (hsv : parsePyFloatChars sl = some sv)
    (hsws : ∀ c ∈ sl, isWS c = false)
    (hscolon : ':' ∉ sl) :
    _parse_time_to_seconds ⟨hrs ++ ':' :: (ms ++ ':' :: sl)⟩ =
      .ok ((digitsToNat hrs : ℚ) * 3600 + (digitsToNat ms : ℚ) * 60 + sv) := by
  have hws : ∀ c ∈ hrs ++ ':' :: (ms ++ ':' :: sl), isWS c = false := by
    intro c hc
    rcases List.mem_append.mp hc with h | h
    · exact isDig_not_ws (hh2 c h)
    · rcases List.mem_cons.mp h with h | h
      · rw [h]; decide
      · rcases List.mem_append.mp h with h | h
        · exact isDig_not_ws (hm2 c h)
        · rcases List.mem_cons.mp h with h | h
          · rw [h]; decide
          · exact hsws c h
  have hstrip : pyStripChars (hrs ++ ':' :: (ms ++ ':' :: sl)) = hrs ++ ':' :: (ms ++ ':' :: sl) :=
    pyStripChars_noop hws
  have hfl : parsePyFloatChars (hrs ++ ':' :: (ms ++ ':' :: sl)) = none :=
    parsePyFloatChars_colon (by simp)
  have hsplit : pySplit ':' (hrs ++ ':' :: (ms ++ ':' :: sl)) = [hrs, ms, sl] := by
    rw [pySplit_append (fun c hc => ne_of_isDig (hh2 c hc) (by decide))]
    rw [pySplit_append (fun c hc => ne_of_isDig (hm2 c hc) (by decide))]
    rw [pySplit_no_sep (not_mem_all_ne hscolon)]
  simp only [_parse_time_to_seconds, hstrip, hfl, hsplit,
    parsePyIntChars_digits hh1 hh2, parsePyIntChars_digits hm1 hm2, hsv, Except.ok.injEq]
  push_cast [Int.ofNat_eq_natCast]
  ring

theorem digits_not_colon {sl : List Char} (h : ∀ c ∈ sl, isDig c = true) : ':' ∉ sl :=
  fun hc => absurd (h ':' hc) (by decide)

theorem digits_frac_not_colon {ss fs : List Char} (h2 : ∀ c ∈ ss, isDig c = true)
    (h3 : ∀ c ∈ fs, isDig c = true) : ':' ∉ ss ++ '.' :: fs := by
  intro hc
  rcases List.mem_append.mp hc with h | h
  · exact absurd (h2 ':' h) (by decide)
  · rcases List.mem_cons.mp h with h | h
    · cases h
    · exact absurd (h3 ':' h) (by decide)

theorem digits_frac_not_ws {ss fs : List Char} (h2 : ∀ c ∈ ss, isDig c = true)
    (h3 : ∀ c ∈ fs, isDig c = true) : ∀ c ∈ ss ++ '.' :: fs, isWS c = false := by
  intro c hc
  rcases List.mem_append.mp hc with h | h
  · exact isDig_not_ws (h2 c h)
  · rcases List.mem_cons.mp h with h | h
    · rw [h]; decide
    · exact isDig_not_ws (h3 c h)

theorem parse_time_ms {ms ss : List Char} (hm1 : ms ≠ [])
    (hm2 : ∀ c ∈ ms, isDig c = true) (hs1 : ss ≠ [])
    (hs2 : ∀ c ∈ ss, isDig c = true) :
    _parse_time_to_seconds ⟨ms ++ ':' :: ss⟩ =
      .ok ((digitsToNat ms : ℚ) * 60 + (digitsToNat ss : ℚ)) :=
  parse_time_ms_gen hm1 hm2 (parsePyFloatChars_digits hs1 hs2)
    (fun c hc => isDig_not_ws (hs2 c hc)) (digits_not_colon hs2)

theorem parse_time_ms_frac {ms ss fs : List Char} (hm1 : ms ≠ [])
    (hm2 : ∀ c ∈ ms, isDig c = true) (hs1 : ss ≠ [])
    (hs2 : ∀ c ∈ ss, isDig c = true) (hf : ∀ c ∈ fs, isDig c = true) :
    _parse_time_to_seconds ⟨ms ++ ':' :: (ss ++ '.' :: fs)⟩ =
      .ok ((digitsToNat ms : ℚ) * 60 + ((digitsToNat ss : ℚ) + fracVal fs)) :=
  parse_time_ms_gen hm1 hm2 (parsePyFloatChars_digits_frac hs1 hs2 hf)
    (digits_frac_not_ws hs2 hf) (digits_frac_not_colon hs2 hf)

theorem parse_time_hms {hrs ms ss : List Char} (hh1 : hrs ≠ [])
    (hh2 : ∀ c ∈ hrs, isDig c = true) (hm1 : ms ≠ [])
    (hm2 : ∀ c ∈ ms, isDig c = true) (hs1 : ss ≠ [])
    (hs2 : ∀ c ∈ ss, isDig c = true) :
    _parse_time_to_seconds ⟨hrs ++ ':' :: (ms ++ ':' :: ss)⟩ =
      .ok ((digitsToNat hrs : ℚ) * 3600 + (digitsToNat ms : ℚ) * 60 + (digitsToNat ss : ℚ)) :=
  parse_time_hms_gen hh1 hh2 hm1 hm2 (parsePyFloatChars_digits hs1 hs2)
    (fun c hc => isDig_not_ws (hs2 c hc)) (digits_not_colon hs2)

theorem parse_time_hms_frac {hrs ms ss fs : List Char} (hh1 : hrs ≠ [])
    (hh2 : ∀ c ∈ hrs, isDig c = true) (hm1 : ms ≠ [])
    (hm2 : ∀ c ∈ ms, isDig c = true) (hs1 : ss ≠ [])
    (hs2 : ∀ c ∈ ss, isDig c = true) (hf : ∀ c ∈ fs, isDig c = true) :
    _parse_time_to_seconds ⟨hrs ++ ':' :: (ms ++ ':' :: (ss ++ '.' :: fs))⟩ =
      .ok ((digitsToNat hrs : ℚ) * 3600 + (digitsToNat ms : ℚ) * 60
        + ((digitsToNat ss : ℚ) + fracVal fs)) :=
  parse_time_hms_gen hh1 hh2 hm1 hm2 (parsePyFloatChars_digits_frac hs1 hs2 hf)
    (digits_frac_not_ws hs2 hf) (digits_frac_not_colon hs2 hf)

/-- Whenever the parser succeeds, the input had an accepted shape:
one, two or three colon-separated pieces whose components convert as
int/float in the required positions. -/
theorem parse_ok_shape {v : String} {q : ℚ}
    (h : _parse_time_to_seconds v = .ok q) : validTimeComponents v = true := by
  unfold _parse_time_to_seconds at h
  unfold validTimeComponents
  cases hf : parsePyFloatChars (pyStripChars v.data) with
  | some q' =>
    have hnc : ':' ∉ pyStripChars v.data := by
      intro hc
      rw [parsePyFloatChars_colon hc] at hf
      cases hf
    have hsplit : pySplit ':' (pyStripChars v.data) = [pyStripChars v.data] :=
      pySplit_no_sep (not_mem_all_ne hnc)
    rw [hsplit]
    simp [hf]
  | none =>
    rw [hf] at h
    cases hsp : pySplit ':' (pyStripChars v.data) with
    | nil => rw [hsp] at h; simp at h
    | cons p0 r0 =>
      rw [hsp] at h
      cases r0 with
      | nil => simp at h
      | cons p1 r1 =>
        cases r1 with
        | nil =>
          cases hi : parsePyIntChars p0 with
          | none => simp [hi] at h
          | some m =>
            cases hfp : parsePyFloatChars p1 with
            | none => simp [hi, hfp] at h
            | some s => simp [hi, hfp]
        | cons p2 r2 =>
          cases r2 with
          | nil =>
            cases hi0 : parsePyIntChars p0 with
            | none => simp [hi0] at h
            | some a =>
              cases hi1 : parsePyIntChars p1 with
              | none => simp [hi0, hi1] at h
              | some b =>
                cases hfp : parsePyFloatChars p2 with
                | none => simp [hi0, hi1, hfp] at h
                | some s => simp [hi0, hi1, hfp]
          | cons p3 r3 => simp at h

/-! ## The HH:MM:SS formatter and its round-trip with the parser -/

theorem digitsToNat_append_singleton (xs : List Char) (c : Char) :
    digitsToNat (xs ++ [c]) = 10 * digitsToNat xs + digitVal c := by
  simp [digitsToNat, List.foldl_append]

theorem natCharsAux_zero (fuel : ℕ) (acc : List Char) : natCharsAux fuel 0 acc = acc := by
  cases fuel <;> simp [natCharsAux]

theorem natCharsAux_append (fuel : ℕ) : ∀ (n : ℕ) (acc : List Char),
    natCharsAux fuel n acc = natCharsAux fuel n [] ++ acc := by
  induction fuel with
  | zero => intro n acc; simp [natCharsAux]
  | succ fuel ih =>
    intro n acc
    by_cases h : n = 0
    · simp [natCharsAux, h]
    · simp only [natCharsAux, if_neg h]
      rw [ih (n / 10) (digitChar (n % 10) :: acc), ih (n / 10) [digitChar (n % 10)]]
      simp

theorem digitChar_toNat {d : ℕ} (h : d < 10) : (digitChar d).toNat = 48 + d := by
  interval_cases d <;> rfl

theorem isDig_digitChar {d : ℕ} (h : d < 10) : isDig (digitChar d) = true := by
  interval_cases d <;> rfl

theorem natCharsAux_correct (fuel : ℕ) : ∀ n : ℕ, n ≠ 0 → n ≤ fuel →
    digitsToNat (natCharsAux fuel n []) = n ∧ natCharsAux fuel n [] ≠ [] ∧
      ∀ c ∈ natCharsAux fuel n [], isDig c = true := by
  induction fuel with
  | zero => intro n h1 h2; omega
  | succ fuel ih =>
    intro n h1 h2
    have hd : n % 10 < 10 := Nat.mod_lt _ (by norm_num)
    by_cases h10 : n / 10 = 0
    · have heq : natCharsAux (fuel + 1) n [] = [digitChar (n % 10)] := by
        simp only [natCharsAux, if_neg h1]
        rw [h10, natCharsAux_zero]
      rw [heq]
      refine ⟨?_, by simp, ?_⟩
      · have hlt : n < 10 := by omega
        simp [digitsToNat, digitVal, digitChar_toNat hd]
        omega
      · intro c hc
        rw [List.mem_singleton.mp hc]
        exact isDig_digitChar hd
    · have hle : n / 10 ≤ fuel := by
        have : n / 10 < n := Nat.div_lt_self (Nat.pos_of_ne_zero h1) (by norm_num)
        omega
      obtain ⟨hv, hne, hdig⟩ := ih (n / 10) h10 hle
      have heq : natCharsAux (fuel + 1) n []
          = natCharsAux fuel (n / 10) [] ++ [digitChar (n % 10)] := by
        simp only [natCharsAux, if_neg h1]
        exact natCharsAux_append fuel (n / 10) [digitChar (n % 10)]
      rw [heq]
      refine ⟨?_, by simp, ?_⟩
      · rw [digitsToNat_append_singleton, hv]
        simp [digitVal, digitChar_toNat hd]
        omega
      · intro c hc
        rcases List.mem_append.mp hc with h | h
        · exact hdig c h
        · rw [List.mem_singleton.mp h]
          exact isDig_digitChar hd

theorem natChars_correct (n : ℕ) :
    digitsToNat (natChars n) = n ∧ natChars n ≠ [] ∧ ∀ c ∈ natChars n, isDig c = true := by
  by_cases h : n = 0
  · subst h
    exact ⟨by decide, by decide, by decide⟩
  · simp only [natChars, if_neg h]
    exact natCharsAux_correct n n h le_rfl

theorem pad2_correct (k : ℕ) :
    digitsToNat (pad2 k) = k ∧ pad2 k ≠ [] ∧ ∀ c ∈ pad2 k, isDig c = true := by
  by_cases h : k < 10
  · simp only [pad2, if_pos h]
    refine ⟨?_, by simp, ?_⟩
    · simp [digitsToNat, digitVal, digitChar_toNat h]
    · intro c hc
      rcases List.mem_cons.mp hc with h1 | h1
      · rw [h1]; decide
      · rw [List.mem_singleton.mp h1]
        exact isDig_digitChar h
  · simp only [pad2, if_neg h]
    exact natChars_correct k

theorem format_eq_of_nonneg {q : ℚ} (h : 0 ≤ q) :
    _format_seconds_as_time q =
      ⟨pad2 (q.floor.toNat / 3600) ++ ':' ::
        (pad2 (q.floor.toNat % 3600 / 60) ++ ':' :: pad2 (q.floor.toNat % 60))⟩ := by
  simp [_format_seconds_as_time, not_lt.mpr h]

theorem ratFloor_natCast (n : ℕ) : ((n : ℚ)).floor = n := by
  rw [Rat.floor_def']
  simp

theorem parse_format_nat (t : ℕ) :
    _parse_time_to_seconds (_format_seconds_as_time (t : ℚ)) = .ok (t : ℚ) := by
  obtain ⟨hv1, hn1, hd1⟩ := pad2_correct (t / 3600)
  obtain ⟨hv2, hn2, hd2⟩ := pad2_correct (t % 3600 / 60)
  obtain ⟨hv3, hn3, hd3⟩ := pad2_correct (t % 60)
  rw [format_eq_of_nonneg (by positivity), ratFloor_natCast, Int.toNat_natCast]
  rw [parse_time_hms hn1 hd1 hn2 hd2 hn3 hd3]
  rw [hv1, hv2, hv3]
  congr 1
  have key : t / 3600 * 3600 + t % 3600 / 60 * 60 + t % 60 = t := by omega
  exact_mod_cast key

theorem mk_pads_ne_to (a b c : ℕ) :
    (⟨pad2 a ++ ':' :: (pad2 b ++ ':' :: pad2 c)⟩ : String) ≠ "-to" := by
  obtain ⟨hv, hn, hdig⟩ := pad2_correct a
  intro h
  have hd := congrArg String.data h
  cases hp : pad2 a with
  | nil => exact hn hp
  | cons x xs =>
    rw [hp] at hd
    have hto : String.data "-to" = ['-', 't', 'o'] := rfl
    rw [hto] at hd
    have hx : x = '-' := by
      have : (x :: (xs ++ ':' :: (pad2 b ++ ':' :: pad2 c))) = ['-', 't', 'o'] := hd
      exact (List.cons.injEq _ _ _ _ ▸ this).1
    have hdx : isDig x = true := hdig x (by rw [hp]; exact List.mem_cons_self x xs)
    rw [hx] at hdx
    cases hdx

theorem format_ne_to (q : ℚ) : _format_seconds_as_time q ≠ "-to" :=
  mk_pads_ne_to _ _ _

/-! ## Claim C2 -/

/-- C2: the time-specification parser accepts exactly the three
textual forms — plain seconds (integer or fractional), MM:SS with
optional fraction and HH:MM:SS with optional fraction — and returns
the hand-computed (positional) number of seconds for every string of
those forms; in particular "1:02:03.5" gives 3723.5, "90" gives 90
and "10:30" gives 630.  Conversely every successful parse had an
accepted shape (colon-segment count one, two or three with numeric
components in the required positions), so any other shape — e.g.
"1:2:3:4" or "abc" — fails with the format error. -/
theorem time_parser_characterization :
    (∀ ds : List Char, ds ≠ [] → (∀ c ∈ ds, isDig c = true) →
      _parse_time_to_seconds ⟨ds⟩ = .ok (digitsToNat ds : ℚ))
    ∧ (∀ ds fs : List Char, ds ≠ [] → fs ≠ [] → (∀ c ∈ ds, isDig c = true) →
        (∀ c ∈ fs, isDig c = true) →
        _parse_time_to_seconds ⟨ds ++ '.' :: fs⟩ = .ok ((digitsToNat ds : ℚ) + fracVal fs))
    ∧ (∀ ms ss : List Char, ms ≠ [] → ss ≠ [] → (∀ c ∈ ms, isDig c = true) →
        (∀ c ∈ ss, isDig c = true) →
        _parse_time_to_seconds ⟨ms ++ ':' :: ss⟩ =
          .ok ((digitsToNat ms : ℚ) * 60 + (digitsToNat ss : ℚ)))
    ∧ (∀ ms ss fs : List Char, ms ≠ [] → ss ≠ [] → fs ≠ [] →
        (∀ c ∈ ms, isDig c = true) → (∀ c ∈ ss, isDig c = true) →
        (∀ c ∈ fs, isDig c = true) →
        _parse_time_to_seconds ⟨ms ++ ':' :: (ss ++ '.' :: fs)⟩ =
          .ok ((digitsToNat ms : ℚ) * 60 + ((digitsToNat ss : ℚ) + fracVal fs)))
    ∧ (∀ hrs ms ss : List Char, hrs ≠ [] → ms ≠ [] → ss ≠ [] →
        (∀ c ∈ hrs, isDig c = true) → (∀ c ∈ ms, isDig c = true) →
        (∀ c ∈ ss, isDig c = true) →
        _parse_time_to_seconds ⟨hrs ++ ':' :: (ms ++ ':' :: ss)⟩ =
          .ok ((digitsToNat hrs : ℚ) * 3600 + (digitsToNat ms : ℚ) * 60 + (digitsToNat ss : ℚ)))
    ∧ (∀ hrs ms ss fs : List Char, hrs ≠ [] → ms ≠ [] → ss ≠ [] → fs ≠ [] →
        (∀ c ∈ hrs, isDig c = true) → (∀ c ∈ ms, isDig c = true) →
        (∀ c ∈ ss, isDig c = true) → (∀ c ∈ fs, isDig c = true) →
        _parse_time_to_seconds ⟨hrs ++ ':' :: (ms ++ ':' :: (ss ++ '.' :: fs))⟩ =
          .ok ((digitsToNat hrs : ℚ) * 3600 + (digitsToNat ms : ℚ) * 60
            + ((digitsToNat ss : ℚ) + fracVal fs)))
    ∧ (∀ (v : String) (q : ℚ), _parse_time_to_seconds v = .ok q → validTimeComponents v = true)
    ∧ _parse_time_to_seconds "1:02:03.5" = .ok (3723.5 : ℚ)
    ∧ _parse_time_to_seconds "90" = .ok (90 : ℚ)
    ∧ _parse_time_to_seconds "10:30" = .ok (630 : ℚ)
    ∧ _parse_time_to_seconds "1:2:3:4" = .error "Invalid time format: 1:2:3:4"
    ∧ _parse_time_to_seconds "abc" = .error "Invalid time format: abc" := by
  refine ⟨fun ds h1 h2 => parse_time_plain h1 h2,
    fun ds fs h1 _ h2 h3 => parse_time_plain_frac h1 h2 h3,
    fun ms ss hm1 hs1 hm2 hs2 => parse_time_ms hm1 hm2 hs1 hs2,
    fun ms ss fs hm1 hs1 _ hm2 hs2 hf => parse_time_ms_frac hm1 hm2 hs1 hs2 hf,
    fun hrs ms ss hh1 hm1 hs1 hh2 hm2 hs2 => parse_time_hms hh1 hh2 hm1 hm2 hs1 hs2,
    fun hrs ms ss fs hh1 hm1 hs1 _ hh2 hm2 hs2 hf =>
      parse_time_hms_frac hh1 hh2 hm1 hm2 hs1 hs2 hf,
    fun v q h => parse_ok_shape h, ?_, ?_, ?_, by decide, by decide⟩
  · rw [show "1:02:03.5" = (⟨['1'] ++ ':' :: (['0', '2'] ++ ':' :: (['0', '3'] ++ '.' :: ['5']))⟩ : String)
        from rfl,
      @parse_time_hms_frac ['1'] ['0', '2'] ['0', '3'] ['5'] (by decide) (by decide)
        (by decide) (by decide) (by decide) (by decide) (by decide)]
    congr 1
    have d1 : digitsToNat ['1'] = 1 := by decide
    have d2 : digitsToNat ['0', '2'] = 2 := by decide
    have d3 : digitsToNat ['0', '3'] = 3 := by decide
    have dv : digitVal '5' = 5 := by decide
    have f5 : fracVal ['5'] = 5 / 10 := by simp [fracVal, dv]
    rw [d1, d2, d3, f5]
    norm_num
  · rw [show "90" = (⟨['9', '0']⟩ : String) from rfl,
      parse_time_plain (by decide) (by decide),
      show digitsToNat ['9', '0'] = 90 from by decide]
    norm_cast
  · rw [show "10:30" = (⟨['1', '0'] ++ ':' :: ['3', '0']⟩ : String) from rfl,
      @parse_time_ms ['1', '0'] ['3', '0'] (by decide) (by decide) (by decide) (by decide)]
    congr 1
    have d1 : digitsToNat ['1', '0'] = 10 := by decide
    have d2 : digitsToNat ['3', '0'] = 30 := by decide
    rw [d1, d2]
    norm_num

theorem time_parser_characterization_witness :
    _parse_time_to_seconds ⟨['2', '5'] ++ ':' :: ['0', '7']⟩ =
      .ok ((digitsToNat ['2', '5'] : ℚ) * 60 + (digitsToNat ['0', '7'] : ℚ)) :=
  time_parser_characterization.2.2.1 ['2', '5'] ['0', '7']
    (by decide) (by decide) (by decide) (by decide)

/-! ## The lossless command builder -/

theorem except_bind_ok {ε α β : Type _} (a : α) (f : α → Except ε β) :
    (Except.ok a >>= f) = f a := rfl

theorem except_bind_error {ε α β : Type _} (msg : ε) (f : α → Except ε β) :
    ((Except.error msg : Except ε α) >>= f) = .error msg := rfl

theorem except_pure {ε α : Type _} (a : α) : (pure a : Except ε α) = .ok a := rfl

theorem except_bind_pure_ok {ε α β : Type _} {T : Except ε α} {f : α → β} {b : β}
    (h : (T >>= fun t => pure (f t)) = Except.ok b) : ∃ t, T = .ok t ∧ b = f t := by
  cases T with
  | error e =>
    rw [except_bind_error] at h
    cases h
  | ok t =>
    rw [except_bind_ok, except_pure] at h
    cases h
    exact ⟨t, rfl, rfl⟩

theorem string_isEmpty_false {s : String} (h : s ≠ "") : s.isEmpty = false := by
  cases hb : s.isEmpty with
  | false => rfl
  | true => exact absurd ((String.isEmpty_iff s).mp hb) h

theorem append_0a_ne_to (s : String) : "0:a:" ++ s ≠ "-to" := by
  obtain ⟨d⟩ := s
  intro h
  have hd := congrArg String.data h
  have he : ("0:a:" ++ (⟨d⟩ : String)).data = '0' :: ':' :: 'a' :: ':' :: d := rfl
  rw [he, show ("-to" : String).data = ['-', 't', 'o'] from rfl] at hd
  simp at hd

theorem append_lang_ne_to (s : String) : "0:a:m:language:" ++ s ≠ "-to" := by
  obtain ⟨d⟩ := s
  intro h
  have hd := congrArg String.data h
  have he : ("0:a:m:language:" ++ (⟨d⟩ : String)).data
      = '0' :: ':' :: 'a' :: ':' :: 'm' :: ':' :: 'l' :: 'a' :: 'n' :: 'g' :: 'u' :: 'a' :: 'g' :: 'e' :: ':' :: d := rfl
  rw [he, show ("-to" : String).data = ['-', 't', 'o'] from rfl] at hd
  simp at hd

/-- With an end time, no duration, and a positive computed clip
length, the builder succeeds and the whole command is determined. -/
theorem build_cmd_end_pos (ffmpeg input_file start e output_file : String)
    (fast map rt : Bool) (ai : Option ℤ) (al : Option String) (pe ps : ℚ)
    (hpe : _parse_time_to_seconds e = .ok pe)
    (hps : _parse_time_to_seconds start = .ok ps)
    (hne : e ≠ "") (hpos : 0 < pe - ps) :
    build_ffmpeg_command ffmpeg input_file start (some e) none output_file fast map ai al rt
      = .ok ([ffmpeg, "-hide_banner"]
        ++ ((if fast then ["-ss", start] else [])
        ++ (["-fflags", "+genpts"]
        ++ (["-i", input_file]
        ++ ((if !fast then ["-ss", start] else [])
        ++ (["-t", _format_seconds_as_time (pe - ps)]
        ++ ((if map then ["-map", "0"]
            else if ai.isSome || al.isSome then
              ["-map", "0:v:0"]
              ++ (match ai with
                  | some i => ["-map", "0:a:" ++ toString i]
                  | none => ["-map", "0:a:m:language:" ++ al.getD ""])
            else [])
        ++ (["-c", "copy"]
        ++ ((if rt then ["-reset_timestamps", "1"] else [])
        ++ (["-avoid_negative_ts", "make_zero"]
        ++ ["-y", output_file])))))))))) := by
  have hie : e.isEmpty = false := string_isEmpty_false hne
  have htrim : lossless_trim_args start (some e) none
      = .ok ["-t", _format_seconds_as_time (pe - ps)] := by
    simp only [lossless_trim_args, Option.getD_some, hpe, hps,
      show pyTruthy none = false from rfl,
      show pyTruthy (some e) = !e.isEmpty from rfl, hie,
      Bool.not_false, Bool.false_eq_true, if_false, if_true,
      if_neg (not_le.mpr hpos)]
  simp only [build_ffmpeg_command, htrim, List.append_assoc]

/-- With an end time, no duration, and a non-positive computed clip
length, the builder raises the ValueError. -/
theorem build_cmd_end_nonpos (ffmpeg input_file start e output_file : String)
    (fast map rt : Bool) (ai : Option ℤ) (al : Option String) (pe ps : ℚ)
    (hpe : _parse_time_to_seconds e = .ok pe)
    (hps : _parse_time_to_seconds start = .ok ps)
    (hne : e ≠ "") (hnp : pe - ps ≤ 0) :
    build_ffmpeg_command ffmpeg input_file start (some e) none output_file fast map ai al rt
      = .error "End time must be greater than start time." := by
  have hie : e.isEmpty = false := string_isEmpty_false hne
  have htrim : lossless_trim_args start (some e) none
      = .error "End time must be greater than start time." := by
    simp only [lossless_trim_args, Option.getD_some, hpe, hps,
      show pyTruthy none = false from rfl,
      show pyTruthy (some e) = !e.isEmpty from rfl, hie,
      Bool.not_false, Bool.false_eq_true, if_false, if_true,
      if_pos hnp]
  simp only [build_ffmpeg_command, htrim]

/-- "-to" never occurs among the builder's fixed tokens or map
tokens. -/
theorem map_tokens_no_to (map : Bool) (ai : Option ℤ) (al : Option String) :
    "-to" ∉ (if map then ["-map", "0"]
      else if ai.isSome || al.isSome then
        ["-map", "0:v:0"]
        ++ (match ai with
            | some i => ["-map", "0:a:" ++ toString i]
            | none => ["-map", "0:a:m:language:" ++ al.getD ""])
      else ([] : List String)) := by
  cases map with
  | true => simp
  | false =>
    cases ai with
    | some i =>
      simp only [Option.isSome_some, Bool.true_or, if_true, if_false, Bool.false_eq_true]
      intro hmem
      rcases List.mem_append.mp hmem with h | h
      · exact absurd h (by decide)
      · rcases List.mem_cons.mp h with h | h
        · exact absurd h (by decide)
        · rw [List.mem_singleton] at h
          exact append_0a_ne_to (toString i) h.symm
    | none =>
      cases al with
      | some lang =>
        simp only [Option.isSome_some, Option.isSome_none, Bool.or_true, if_true, if_false,
          Bool.false_eq_true]
        intro hmem
        rcases List.mem_append.mp hmem with h | h
        · exact absurd h (by decide)
        · rcases List.mem_cons.mp h with h | h
          · exact absurd h (by decide)
          · rw [List.mem_singleton] at h
            exact append_lang_ne_to lang h.symm
      | none => simp

theorem ratFloor_eq_intFloor (q : ℚ) : q.floor = ⌊q⌋ := by
  rw [Rat.floor_def', Rat.floor_def]

theorem not_mem_if_list {b : Bool} {l : List String} (hl : "-to" ∉ l) :
    "-to" ∉ (if b then l else ([] : List String)) := by
  cases b <;> simp_all

/-! ## Claim C1 -/

/-- C1 (amended): in the lossless builder, for every request with a
start time and an end time but no duration, the emitted trim flag is
-t (never -to) and its value is the computed duration end − start
formatted as HH:MM:SS with the fractional part truncated by the
formatter; the emitted value denotes exactly end − start whenever
end − start is a whole number of seconds; and the builder fails with
the ValueError when the computed duration is not strictly positive. -/
theorem lossless_trim_t_flag_amended :
    (∀ (ffmpeg input_file start e output_file : String) (fast map rt : Bool)
        (ai : Option ℤ) (al : Option String) (pe ps : ℚ),
        _parse_time_to_seconds e = .ok pe →
        _parse_time_to_seconds start = .ok ps →
        e ≠ "" → 0 < pe - ps →
        ffmpeg ≠ "-to" → input_file ≠ "-to" → start ≠ "-to" → output_file ≠ "-to" →
        ∃ cmd,
          build_ffmpeg_command ffmpeg input_file start (some e) none output_file
            fast map ai al rt = .ok cmd
          ∧ (∃ pre post, cmd = pre ++ ["-t", _format_seconds_as_time (pe - ps)] ++ post)
          ∧ "-to" ∉ cmd)
    ∧ (∀ (ffmpeg input_file start e output_file : String) (fast map rt : Bool)
        (ai : Option ℤ) (al : Option String) (pe ps : ℚ),
        _parse_time_to_seconds e = .ok pe →
        _parse_time_to_seconds start = .ok ps →
        e ≠ "" → pe - ps ≤ 0 →
        build_ffmpeg_command ffmpeg input_file start (some e) none output_file
          fast map ai al rt = .error "End time must be greater than start time.")
    ∧ (∀ (pe ps : ℚ) (n : ℕ), pe - ps = (n : ℚ) →
        _parse_time_to_seconds (_format_seconds_as_time (pe - ps)) = .ok (pe - ps)) := by
  refine ⟨?_, ?_, ?_⟩
  · intro ffmpeg input_file start e output_file fast map rt ai al pe ps hpe hps hne hpos
      h1 h2 h3 h4
    have hb := build_cmd_end_pos ffmpeg input_file start e output_file fast map rt ai al
      pe ps hpe hps hne hpos
    refine ⟨_, hb,
      ⟨[ffmpeg, "-hide_banner"]
        ++ (if fast then ["-ss", start] else [])
        ++ ["-fflags", "+genpts"] ++ ["-i", input_file]
        ++ (if !fast then ["-ss", start] else []),
      (if map then ["-map", "0"]
        else if ai.isSome || al.isSome then
          ["-map", "0:v:0"]
          ++ (match ai with
              | some i => ["-map", "0:a:" ++ toString i]
              | none => ["-map", "0:a:m:language:" ++ al.getD ""])
        else [])
        ++ ["-c", "copy"]
        ++ (if rt then ["-reset_timestamps", "1"] else [])
        ++ ["-avoid_negative_ts", "make_zero"] ++ ["-y", output_file],
      by cases ai <;> simp only [List.append_assoc]⟩, ?_⟩
    intro hmem
    have hss : "-to" ∉ (if fast then ["-ss", start] else ([] : List String)) := by
      refine not_mem_if_list ?_
      intro hm
      rcases List.mem_cons.mp hm with h | h
      · exact absurd h (by decide)
      · rw [List.mem_singleton] at h
        exact h3 h.symm
    have hss2 : "-to" ∉ (if !fast then ["-ss", start] else ([] : List String)) := by
      refine not_mem_if_list ?_
      intro hm
      rcases List.mem_cons.mp hm with h | h
      · exact absurd h (by decide)
      · rw [List.mem_singleton] at h
        exact h3 h.symm
    have hrt : "-to" ∉ (if rt then ["-reset_timestamps", "1"] else ([] : List String)) :=
      not_mem_if_list (by decide)
    rcases List.mem_append.mp hmem with h | hmem
    · rcases List.mem_cons.mp h with h | h
      · exact h1 h.symm
      · exact absurd h (by decide)
    rcases List.mem_append.mp hmem with h | hmem
    · exact hss h
    rcases List.mem_append.mp hmem with h | hmem
    · exact absurd h (by decide)
    rcases List.mem_append.mp hmem with h | hmem
    · rcases List.mem_cons.mp h with h | h
      · exact absurd h (by decide)
      · rw [List.mem_singleton] at h
        exact h2 h.symm
    rcases List.mem_append.mp hmem with h | hmem
    · exact hss2 h
    rcases List.mem_append.mp hmem with h | hmem
    · rcases List.mem_cons.mp h with h | h
      · exact absurd h (by decide)
      · rw [List.mem_singleton] at h
        exact format_ne_to (pe - ps) h.symm
    rcases List.mem_append.mp hmem with h | hmem
    · exact map_tokens_no_to map ai al h
    rcases List.mem_append.mp hmem with h | hmem
    · exact absurd h (by decide)
    rcases List.mem_append.mp hmem with h | hmem
    · exact hrt h
    rcases List.mem_append.mp hmem with h | hmem
    · exact absurd h (by decide)
    rcases List.mem_cons.mp hmem with h | h
    · exact absurd h (by decide)
    · rw [List.mem_singleton] at h
      exact h4 h.symm
  · intro ffmpeg input_file start e output_file fast map rt ai al pe ps hpe hps hne hnp
    exact build_cmd_end_nonpos ffmpeg input_file start e output_file fast map rt ai al
      pe ps hpe hps hne hnp
  · intro pe ps n h
    rw [h]
    exact parse_format_nat n

/-- C1 counterexample: with start 0 and end 0.5 the computed duration
is 1/2, the builder succeeds, and the -t value it emits is
"00:00:00", which denotes 0 seconds — not the computed duration
end − start. -/
theorem lossless_subsecond_trim_counterexample :
    build_ffmpeg_command "ffmpeg" "in.mkv" "0" (some "0.5") none "out.mkv"
        true true none none true
      = .ok ["ffmpeg", "-hide_banner", "-ss", "0", "-fflags", "+genpts", "-i", "in.mkv",
          "-t", "00:00:00", "-map", "0", "-c", "copy", "-reset_timestamps", "1",
          "-avoid_negative_ts", "make_zero", "-y", "out.mkv"]
    ∧ _parse_time_to_seconds "0.5" = .ok (1 / 2 : ℚ)
    ∧ _parse_time_to_seconds "0" = .ok (0 : ℚ)
    ∧ _parse_time_to_seconds "00:00:00" = .ok (0 : ℚ)
    ∧ (1 / 2 : ℚ) - 0 ≠ 0 := by
  have hp05 : _parse_time_to_seconds "0.5" = .ok (1 / 2 : ℚ) := by
    rw [show "0.5" = (⟨['0'] ++ '.' :: ['5']⟩ : String) from rfl,
      @parse_time_plain_frac ['0'] ['5'] (by decide) (by decide) (by decide),
      show digitsToNat ['0'] = 0 from by decide]
    congr 1
    have dv : digitVal '5' = 5 := by decide
    have f5 : fracVal ['5'] = 5 / 10 := by simp [fracVal, dv]
    rw [f5]
    norm_num
  have hp0 : _parse_time_to_seconds "0" = .ok (0 : ℚ) := by
    rw [show "0" = (⟨['0']⟩ : String) from rfl, parse_time_plain (by decide) (by decide),
      show digitsToNat ['0'] = 0 from by decide]
    norm_cast
  have hp000 : _parse_time_to_seconds "00:00:00" = .ok (0 : ℚ) := by
    rw [show "00:00:00" = (⟨['0','0'] ++ ':' :: (['0','0'] ++ ':' :: ['0','0'])⟩ : String) from rfl,
      @parse_time_hms ['0','0'] ['0','0'] ['0','0'] (by decide) (by decide) (by decide)
        (by decide) (by decide) (by decide),
      show digitsToNat ['0','0'] = 0 from by decide]
    congr 1
    push_cast
    ring
  have hfmt : _format_seconds_as_time ((1 / 2 : ℚ) - 0) = "00:00:00" := by
    rw [show ((1 / 2 : ℚ) - 0) = 1 / 2 from by norm_num,
      format_eq_of_nonneg (by norm_num)]
    have hfl : ((1 / 2 : ℚ)).floor = 0 := by
      rw [ratFloor_eq_intFloor,
        show ((1 : ℚ) / 2) = ((1 : ℕ) : ℚ) / ((2 : ℕ) : ℚ) from by norm_num,
        Rat.floor_natCast_div_natCast]
      decide
    rw [hfl]
    decide
  have hb := build_cmd_end_pos "ffmpeg" "in.mkv" "0" "0.5" "out.mkv" true true true
    none none (1 / 2) 0 hp05 hp0 (by decide) (by norm_num)
  rw [hfmt] at hb
  refine ⟨?_, hp05, hp0, hp000, by norm_num⟩
  rw [hb]
  decide

theorem lossless_trim_t_flag_amended_witness :
    ∃ cmd,
      build_ffmpeg_command "ffmpeg" "movie.mkv" "00:01:00" (some "00:01:30") none "clip.mkv"
        true true none none true = .ok cmd
      ∧ (∃ pre post, cmd = pre ++ ["-t", _format_seconds_as_time ((90 : ℚ) - 60)] ++ post)
      ∧ "-to" ∉ cmd := by
  have hpe : _parse_time_to_seconds "00:01:30" = .ok (90 : ℚ) := by
    rw [show "00:01:30" = (⟨['0','0'] ++ ':' :: (['0','1'] ++ ':' :: ['3','0'])⟩ : String) from rfl,
      @parse_time_hms ['0','0'] ['0','1'] ['3','0'] (by decide) (by decide) (by decide)
        (by decide) (by decide) (by decide),
      show digitsToNat ['0','0'] = 0 from by decide,
      show digitsToNat ['0','1'] = 1 from by decide,
      show digitsToNat ['3','0'] = 30 from by decide]
    congr 1
    push_cast
    ring
  have hps : _parse_time_to_seconds "00:01:00" = .ok (60 : ℚ) := by
    rw [show "00:01:00" = (⟨['0','0'] ++ ':' :: (['0','1'] ++ ':' :: ['0','0'])⟩ : String) from rfl,
      @parse_time_hms ['0','0'] ['0','1'] ['0','0'] (by decide) (by decide) (by decide)
        (by decide) (by decide) (by decide),
      show digitsToNat ['0','0'] = 0 from by decide,
      show digitsToNat ['0','1'] = 1 from by decide]
    congr 1
    push_cast
    ring
  exact lossless_trim_t_flag_amended.1 "ffmpeg" "movie.mkv" "00:01:00" "00:01:30" "clip.mkv"
    true true true none none 90 60 hpe hps (by decide) (by norm_num)
    (by decide) (by decide) (by decide) (by decide)

/-! ## Claim C10 -/

theorem build_ok_y_last {ffmpeg input_file start output_file : String}
    {end_ duration : Option String} {fast map rt : Bool} {ai : Option ℤ}
    {al : Option String} {cmd : List String}
    (h : build_ffmpeg_command ffmpeg input_file start end_ duration output_file
        fast map ai al rt = .ok cmd) :
    ∃ pre, cmd = pre ++ ["-y", output_file] := by
  unfold build_ffmpeg_command at h
  cases hT : lossless_trim_args start end_ duration with
  | error msg =>
    rw [hT] at h
    cases h
  | ok t =>
    rw [hT] at h
    exact ⟨_, (Except.ok.inj h).symm⟩

/-- C10: every command the lossless builder produces ends with the
overwrite flag -y immediately followed by the output path, so an
existing file at the output path is overwritten without prompt or
existence check. -/
theorem overwrite_flag_before_output :
    ∀ (ffmpeg input_file start output_file : String) (end_ duration : Option String)
      (fast map rt : Bool) (ai : Option ℤ) (al : Option String) (cmd : List String),
      build_ffmpeg_command ffmpeg input_file start end_ duration output_file
        fast map ai al rt = .ok cmd →
      ∃ pre, cmd = pre ++ ["-y", output_file] :=
  fun _ _ _ _ _ _ _ _ _ _ _ _ h => build_ok_y_last h

theorem overwrite_flag_before_output_witness :
    ∃ pre, ["ffmpeg", "-hide_banner", "-ss", "0", "-fflags", "+genpts", "-i", "in.mkv",
      "-t", "10", "-map", "0", "-c", "copy", "-reset_timestamps", "1",
      "-avoid_negative_ts", "make_zero", "-y", "out.mkv"] = pre ++ ["-y", "out.mkv"] :=
  overwrite_flag_before_output "ffmpeg" "in.mkv" "0" "out.mkv" none (some "10")
    true true true none none _ (by decide)

/-! ## Claim C6 -/

/-- C6: in the re-encoding command builder, whenever both a duration
and an end time are present (truthy), the emitted command carries a
-t flag with the duration value and contains no -to token: duration
takes precedence over the end time. -/
theorem reencode_duration_precedence :
    ∀ (ffmpeg filename : String) (st dur et : Option String) (hdr : Bool)
      (out : Option String),
      pyTruthy dur = true → pyTruthy et = true →
      ffmpeg ≠ "-to" → filename ≠ "-to" → st ≠ some "-to" → dur ≠ some "-to" →
      out ≠ some "-to" →
      (∃ pre post, run_ffmpeg_cmd ffmpeg filename st dur et hdr out
          = pre ++ ["-t", dur.getD ""] ++ post)
      ∧ "-to" ∉ run_ffmpeg_cmd ffmpeg filename st dur et hdr out := by
  intro ffmpeg filename st dur et hdr out hd he hf hfn hst hdur hout
  constructor
  · refine ⟨[ffmpeg] ++ (if pyTruthy st then ["-ss", st.getD ""] else []) ++ ["-i", filename],
      (if hdr then ["-vf", HDR_TONEMAPPING] else [])
        ++ pySplitWS VIDEO_ENCODING ++ pySplitWS AUDIO_ENCODING
        ++ [match out with | some o => o | none => "output.mp4"], ?_⟩
    simp only [run_ffmpeg_cmd, hd, if_true, List.append_assoc]
  · intro hmem
    simp only [run_ffmpeg_cmd, hd, if_true] at hmem
    rcases List.mem_append.mp hmem with hmem | h
    case inr =>
      rw [List.mem_singleton] at h
      cases out with
      | some o => exact hout (congrArg some (show o = "-to" from h.symm))
      | none => exact absurd h (by decide)
    rcases List.mem_append.mp hmem with hmem | h
    case inr => exact absurd h (by decide)
    rcases List.mem_append.mp hmem with hmem | h
    case inr => exact absurd h (by decide)
    rcases List.mem_append.mp hmem with hmem | h
    case inr =>
      refine not_mem_if_list ?_ h
      intro hm
      rcases List.mem_cons.mp hm with h1 | h1
      · exact absurd h1 (by decide)
      · rw [List.mem_singleton] at h1
        exact absurd h1 (by decide)
    rcases List.mem_append.mp hmem with hmem | h
    case inr =>
      rcases List.mem_cons.mp h with h1 | h1
      · exact absurd h1 (by decide)
      · rw [List.mem_singleton] at h1
        cases dur with
        | some d => exact hdur (congrArg some (show d = "-to" from h1.symm))
        | none => exact absurd hd (by decide)
    rcases List.mem_append.mp hmem with hmem | h
    case inr =>
      rcases List.mem_cons.mp h with h1 | h1
      · exact absurd h1 (by decide)
      · rw [List.mem_singleton] at h1
        exact hfn h1.symm
    rcases List.mem_append.mp hmem with hmem | h
    case inr =>
      refine not_mem_if_list ?_ h
      intro hm
      rcases List.mem_cons.mp hm with h1 | h1
      · exact absurd h1 (by decide)
      · rw [List.mem_singleton] at h1
        cases st with
        | some s => exact hst (congrArg some (show s = "-to" from h1.symm))
        | none => exact absurd h1 (by decide)
    rw [List.mem_singleton] at hmem
    exact hf hmem.symm

theorem reencode_duration_precedence_witness :
    (∃ pre post, run_ffmpeg_cmd "ffmpeg" "movie.mkv" (some "0") (some "10") (some "20")
        false (some "clip.mp4") = pre ++ ["-t", (some "10").getD ""] ++ post)
    ∧ "-to" ∉ run_ffmpeg_cmd "ffmpeg" "movie.mkv" (some "0") (some "10") (some "20")
        false (some "clip.mp4") :=
  reencode_duration_precedence "ffmpeg" "movie.mkv" (some "0") (some "10") (some "20")
    false (some "clip.mp4") (by decide) (by decide) (by decide) (by decide)
    (by decide) (by decide) (by decide)

/-! ## Claim C9 -/

/-- C9: every invocation of the lossless script that combines
--map-all with an explicit audio selection (--audio-index present or
a truthy --audio-lang) returns the usage exit code 2 and spawns no
subprocess, whatever the rest of the arguments and environment are
(the other validation paths also exit 2 without spawning). -/
theorem map_all_audio_conflict_rejected :
    ∀ (a : LosslessArgs) (env : LosslessEnv),
      a.map_all = true →
      (a.audio_index.isSome || pyTruthy a.audio_lang) = true →
      lossless_main a env = .ok (2, []) := by
  intro a env hmap hsel
  cases env with
  | mk input_exists ffmpeg_path returncode =>
    cases ffmpeg_path with
    | none => cases input_exists <;> simp [lossless_main]
    | some f => cases input_exists <;> simp [lossless_main, hmap, hsel]

theorem map_all_audio_conflict_rejected_witness :
    lossless_main
      ⟨"movie.mkv", "0", none, some "10", some "out.mkv", false, false, true, false,
       some 1, none, false⟩
      ⟨true, some "/usr/bin/ffmpeg", 0⟩ = .ok (2, []) :=
  map_all_audio_conflict_rejected _ _ (by decide) (by decide)

/-! ## Claim C3 -/

/-- C3 (code bug): is_hdr classifies bt2020nc/bt2020 as HDR and
bt709 as non-HDR, but a descriptor lacking color_space — or one
whose color_space contains bt2020 while color_primaries is absent —
raises KeyError instead of yielding the non-HDR default the spec
requires. -/
theorem is_hdr_missing_attribute_raises :
    is_hdr (some [("color_space", "bt2020nc"), ("color_primaries", "bt2020")]) = .ok true
    ∧ is_hdr (some [("color_space", "bt709"), ("color_primaries", "bt709")]) = .ok false
    ∧ is_hdr (some [("color_primaries", "bt2020")]) = .error .keyError
    ∧ is_hdr (some [("color_space", "bt2020nc")]) = .error .keyError :=
  ⟨by decide, by decide, by decide, by decide⟩

/-! ## Claim C4 -/

/-- C4 (code bug): on probe output containing no video stream, main
leaves video_stream as None and is_hdr(None) raises an uncaught
TypeError — the pipeline does not surface an explicit error
condition. -/
theorem missing_video_stream_type_error :
    h264_main ⟨"movie.mkv", some "0", some "10", none, some "clip.mp4"⟩
      ⟨some "/usr/bin/ffprobe", "[STREAM]\ncodec_type=audio\n[/STREAM]",
       some "/usr/bin/ffmpeg", 0⟩
      = .error .typeError
    ∧ find_video_stream [[("codec_type", "audio")]] = .ok none :=
  ⟨by decide, by decide⟩

/-! ## Claim C8 -/

/-- C8 (code bug): with ffmpeg exiting 1, the lossless script's
process exit code is 1 (main's return value is raised as
SystemExit), but the re-encoding script's process exit code is 0:
its main discards run_ffmpeg's return value and the module-level
call discards main's, so the tool's exit code is never forwarded. -/
theorem exit_code_forwarding_divergence :
    h264_script_exit ⟨"movie.mkv", some "0", some "10", none, some "clip.mp4"⟩
      ⟨some "/usr/bin/ffprobe",
       "[STREAM]\ncodec_type=video\ncolor_space=bt709\ncolor_primaries=bt709\n[/STREAM]",
       some "/usr/bin/ffmpeg", 1⟩ = 0
    ∧ lossless_script_exit
        ⟨"movie.mkv", "0", none, some "10", some "out.mkv", false, false, false, false,
         none, none, false⟩
        ⟨true, some "/usr/bin/ffmpeg", 1⟩ = 1 :=
  ⟨by decide, by decide⟩

/-! ## Claim C7 -/

theorem not_mem_of_contains_false {l : List String} {a : String}
    (h : l.contains a = false) : a ∉ l := by
  intro hm
  simp only [List.contains] at h
  rw [List.elem_eq_true_of_mem hm] at h
  cases h

/-- C7: in the batch converter, a source file whose target output
file already exists is skipped — no subprocess is spawned and the
state is unchanged — and when the tool fails on one file, the spawn
is recorded, the partial output (if any) is removed so the file set
is unchanged, and processing continues with the remaining files
instead of aborting. -/
theorem batch_skip_and_failure_isolation :
    (∀ (env : BatchEnv) (output_dir rel root : String) (st : BatchState) (file : String),
      isFlacName file = true →
      st.fs.contains (pathJoin (pathJoin output_dir rel) ((py_splitext file).1 ++ ".mp3"))
        = true →
      convert_one env output_dir rel root st file = (st, false))
    ∧ (∀ (env : BatchEnv) (output_dir rel root : String) (st : BatchState) (file : String)
        (rest : List String) (wrote : Bool),
      isFlacName file = true →
      st.fs.contains (pathJoin (pathJoin output_dir rel) ((py_splitext file).1 ++ ".mp3"))
        = false →
      env.outcome (pathJoin root file) = .failed wrote →
      convert_files env output_dir rel root st (file :: rest)
        = convert_files env output_dir rel root
            ⟨st.fs, st.spawned ++ [mp3_cmd (pathJoin root file)
              (pathJoin (pathJoin output_dir rel) ((py_splitext file).1 ++ ".mp3"))]⟩
            rest) := by
  constructor
  · intro env output_dir rel root st file hflac hcont
    simp only [convert_one, hflac, if_true, hcont]
  · intro env output_dir rel root st file rest wrote hflac hcont houtcome
    have hnm : pathJoin (pathJoin output_dir rel) ((py_splitext file).1 ++ ".mp3") ∉ st.fs :=
      not_mem_of_contains_false hcont
    have hone : convert_one env output_dir rel root st file
        = (⟨st.fs, st.spawned ++ [mp3_cmd (pathJoin root file)
            (pathJoin (pathJoin output_dir rel) ((py_splitext file).1 ++ ".mp3"))]⟩, false) := by
      simp only [convert_one, hflac, if_true, hcont, Bool.false_eq_true, if_false,
        ffmpeg_convert, houtcome]
      cases wrote with
      | true =>
        simp only [if_true]
        have hc2 : (st.fs ++ [pathJoin (pathJoin output_dir rel)
            ((py_splitext file).1 ++ ".mp3")]).contains
            (pathJoin (pathJoin output_dir rel) ((py_splitext file).1 ++ ".mp3")) = true :=
          List.elem_eq_true_of_mem (by simp)
        rw [hc2]
        simp only [if_true]
        rw [List.erase_append_right _ hnm, List.erase_cons_head]
        simp
      | false =>
        simp only [Bool.false_eq_true, if_false, hcont]
    simp only [convert_files, hone]

theorem batch_skip_and_failure_isolation_witness :
    convert_files ⟨fun _ => .failed true⟩ "out" "." "in" ⟨[], []⟩ ["a.flac", "b.flac"]
      = convert_files ⟨fun _ => .failed true⟩ "out" "." "in"
          ⟨[], [mp3_cmd (pathJoin "in" "a.flac")
            (pathJoin (pathJoin "out" ".") ((py_splitext "a.flac").1 ++ ".mp3"))]⟩
          ["b.flac"] :=
  batch_skip_and_failure_isolation.2 ⟨fun _ => .failed true⟩ "out" "." "in" ⟨[], []⟩
    "a.flac" ["b.flac"] true (by decide) (by decide) rfl

/-! ## Claim C5 -/

theorem foldlM_split_append (l1 l2 : List String) (st : SplitState) :
    List.foldlM split_step st (l1 ++ l2) =
      List.foldlM split_step st l1 >>= fun st2 => List.foldlM split_step st2 l2 := by
  induction l1 generalizing st with
  | nil => simp [List.foldlM]
  | cons h t ih =>
    simp only [List.cons_append, List.foldlM]
    cases split_step st h with
    | error e => rfl
    | ok st2 =>
      rw [except_bind_ok, except_bind_ok]
      exact ih st2

theorem split_body_fold (body : List String) :
    (∀ l ∈ body, pyStrip l ≠ "[STREAM]" ∧ pyStrip l ≠ "[/STREAM]") →
    ∀ (cb : List String) (sb : List (List String)),
    List.foldlM split_step ⟨some true, some cb, sb⟩ body =
      .ok ⟨some true, some (cb ++ keepLines body), sb⟩ := by
  induction body with
  | nil => intro _ cb sb; simp [List.foldlM, keepLines, except_pure]
  | cons l t ih =>
    intro hb cb sb
    obtain ⟨h1, h2⟩ := hb l (List.mem_cons_self l t)
    have ht : ∀ x ∈ t, pyStrip x ≠ "[STREAM]" ∧ pyStrip x ≠ "[/STREAM]" :=
      fun x hx => hb x (List.mem_cons_of_mem l hx)
    have hstep : split_step ⟨some true, some cb, sb⟩ l =
        (if containsEq l then .ok ⟨some true, some (cb ++ [pyStrip l]), sb⟩
         else .ok ⟨some true, some cb, sb⟩) := by
      simp [split_step, h1, h2]
    simp only [List.foldlM, hstep]
    cases hc : containsEq l with
    | true =>
      rw [if_pos rfl, except_bind_ok, ih ht]
      simp [keepLines, List.filter_cons, hc, List.append_assoc]
    | false =>
      rw [if_neg (by simp), except_bind_ok, ih ht]
      simp [keepLines, List.filter_cons, hc]

theorem split_block_fold (body : List String)
    (hb : ∀ l ∈ body, pyStrip l ≠ "[STREAM]" ∧ pyStrip l ≠ "[/STREAM]")
    (st : SplitState) :
    List.foldlM split_step st (renderBlock body) =
      .ok ⟨some false, some (keepLines body),
           if !(keepLines body).isEmpty then st.stream_blocks ++ [keepLines body]
           else st.stream_blocks⟩ := by
  have e1 : pyStrip "[STREAM]" = "[STREAM]" := by decide
  have e2 : pyStrip "[/STREAM]" = "[/STREAM]" := by decide
  have e3 : ¬ pyStrip "[/STREAM]" = "[STREAM]" := by decide
  have hopen : split_step st "[STREAM]" = .ok ⟨some true, some [], st.stream_blocks⟩ := by
    simp only [split_step]
    rw [if_pos e1]
  have hclose : ∀ cb sb, split_step ⟨some true, some cb, sb⟩ "[/STREAM]" =
      .ok ⟨some false, some cb, if !cb.isEmpty then sb ++ [cb] else sb⟩ := by
    intro cb sb
    simp only [split_step]
    rw [if_neg e3, if_pos e2]
  show List.foldlM split_step st ("[STREAM]" :: (body ++ ["[/STREAM]"])) = _
  simp only [List.foldlM, hopen, except_bind_ok]
  rw [foldlM_split_append, split_body_fold body hb [] st.stream_blocks, except_bind_ok]
  simp only [List.nil_append, List.foldlM, hclose, except_bind_ok]
  rfl

theorem split_blocks_fold (blocks : List (List String)) :
    (∀ b ∈ blocks, ∀ l ∈ b, pyStrip l ≠ "[STREAM]" ∧ pyStrip l ≠ "[/STREAM]") →
    ∀ st : SplitState,
    ∃ i c, List.foldlM split_step st ((blocks.map renderBlock).join) =
      .ok ⟨i, c, st.stream_blocks ++ blockResults blocks⟩ := by
  induction blocks with
  | nil =>
    intro _ st
    exact ⟨st.in_stream, st.current_block, by simp [List.foldlM, blockResults, except_pure]⟩
  | cons b bs ih =>
    intro hb st
    have hbb : ∀ l ∈ b, pyStrip l ≠ "[STREAM]" ∧ pyStrip l ≠ "[/STREAM]" :=
      hb b (List.mem_cons_self b bs)
    have hbs : ∀ x ∈ bs, ∀ l ∈ x, pyStrip l ≠ "[STREAM]" ∧ pyStrip l ≠ "[/STREAM]" :=
      fun x hx => hb x (List.mem_cons_of_mem b hx)
    simp only [List.map_cons, List.join_cons]
    rw [foldlM_split_append, split_block_fold b hbb st, except_bind_ok]
    obtain ⟨i, c, hrec⟩ := ih hbs
      ⟨some false, some (keepLines b),
       if !(keepLines b).isEmpty then st.stream_blocks ++ [keepLines b] else st.stream_blocks⟩
    refine ⟨i, c, ?_⟩
    rw [hrec]
    have hacc : (if !(keepLines b).isEmpty then st.stream_blocks ++ [keepLines b]
          else st.stream_blocks) ++ blockResults bs =
        st.stream_blocks ++ blockResults (b :: bs) := by
      cases he : (keepLines b).isEmpty with
      | true =>
        simp [blockResults, List.filter_cons, he]
      | false =>
        simp [blockResults, List.filter_cons, he, List.append_assoc]
    rw [hacc]

theorem split_streams_lines_blocks (blocks : List (List String))
    (hb : ∀ b ∈ blocks, ∀ l ∈ b, pyStrip l ≠ "[STREAM]" ∧ pyStrip l ≠ "[/STREAM]") :
    split_streams_lines ((blocks.map renderBlock).join) = .ok (blockResults blocks) := by
  obtain ⟨i, c, h⟩ := split_blocks_fold blocks hb ⟨none, none, []⟩
  simp only [split_streams_lines, h, except_bind_ok, except_pure, List.nil_append]

theorem split_streams_lines_trailing (blocks : List (List String)) (extra : List String)
    (hb : ∀ b ∈ blocks, ∀ l ∈ b, pyStrip l ≠ "[STREAM]" ∧ pyStrip l ≠ "[/STREAM]")
    (hx : ∀ l ∈ extra, pyStrip l ≠ "[STREAM]" ∧ pyStrip l ≠ "[/STREAM]") :
    split_streams_lines ((blocks.map renderBlock).join ++ "[STREAM]" :: extra)
      = .ok (blockResults blocks) := by
  obtain ⟨i, c, h⟩ := split_blocks_fold blocks hb ⟨none, none, []⟩
  have e1 : pyStrip "[STREAM]" = "[STREAM]" := by decide
  have hopen : ∀ st : SplitState,
      split_step st "[STREAM]" = .ok ⟨some true, some [], st.stream_blocks⟩ := by
    intro st
    simp only [split_step]
    rw [if_pos e1]
  simp only [split_streams_lines]
  rw [foldlM_split_append, h, except_bind_ok]
  simp only [List.foldlM, hopen, except_bind_ok, List.nil_append]
  rw [split_body_fold extra hx [] (blockResults blocks)]
  rfl

theorem split_streams_lines_leading_junk (l : String) (rest : List String)
    (h : pyStrip l ≠ "[STREAM]") :
    split_streams_lines (l :: rest) = .error .nameError := by
  have hstep : split_step ⟨none, none, []⟩ l = .error .nameError := by
    simp only [split_step]
    rw [if_neg h]
    by_cases h2 : pyStrip l = "[/STREAM]"
    · rw [if_pos h2]
    · rw [if_neg h2]
  simp only [split_streams_lines, List.foldlM, hstep, except_bind_error]

/-- C5 counterexample: the first loop of split_streams reads the
local variables in_stream and current_block before ever assigning
them when the text does not begin with a marker line, so probe text
carrying any leading non-marker line (here "x=1") raises NameError
instead of returning the well-formed block after it; and a block
whose body kept no key=value line is dropped entirely rather than
yielding an (empty) descriptor: two well-formed blocks produce one
descriptor, not two. -/
theorem split_streams_counterexample :
    split_streams "x=1\n[STREAM]\ncodec_type=video\n[/STREAM]" = .error .nameError
    ∧ split_streams "[STREAM]\n[/STREAM]\n[STREAM]\na=1\n[/STREAM]" = .ok [[("a", "1")]] :=
  ⟨by decide, by decide⟩

/-- C5 (amended): over lines forming a concatenation of well-formed
[STREAM]...[/STREAM] blocks whose body lines are not marker lines,
the first loop of split_streams succeeds and returns, in input
order, the stripped key=value lines of each block that kept at least
one such line (lines without an equals sign are ignored, and blocks
that kept nothing are dropped rather than reported); a trailing
block missing its closing [/STREAM] marker is silently dropped; but
on any line list whose first line does not strip to [STREAM] the
loop raises NameError (the in_stream / current_block variables are
still unbound), so the parser does not return descriptors for every
probe text.  On the spec's two-block example split_streams returns
the two descriptors in input order and find_video_stream selects
the video one. -/
theorem split_streams_amended (blocks : List (List String)) (extra : List String)
    (hblocks : ∀ b ∈ blocks, ∀ l ∈ b, pyStrip l ≠ "[STREAM]" ∧ pyStrip l ≠ "[/STREAM]")
    (hextra : ∀ l ∈ extra, pyStrip l ≠ "[STREAM]" ∧ pyStrip l ≠ "[/STREAM]") :
    split_streams_lines ((blocks.map renderBlock).join) = .ok (blockResults blocks)
    ∧ split_streams_lines ((blocks.map renderBlock).join ++ "[STREAM]" :: extra)
        = .ok (blockResults blocks)
    ∧ (∀ l rest, pyStrip l ≠ "[STREAM]" →
        split_streams_lines (l :: rest) = .error .nameError)
    ∧ split_streams
        "[STREAM]\ncodec_type=audio\n[/STREAM]\n[STREAM]\ncodec_type=video\nwidth=1920\n[/STREAM]"
        = .ok [[("codec_type", "audio")], [("codec_type", "video"), ("width", "1920")]]
    ∧ find_video_stream [[("codec_type", "audio")], [("codec_type", "video"), ("width", "1920")]]
        = .ok (some [("codec_type", "video"), ("width", "1920")]) :=
  ⟨split_streams_lines_blocks blocks hblocks,
   split_streams_lines_trailing blocks extra hblocks hextra,
   fun l rest h => split_streams_lines_leading_junk l rest h,
   by decide, by decide⟩

theorem split_streams_amended_witness :
    split_streams_lines (([["codec_type=video"]].map renderBlock).join)
      = .ok [["codec_type=video"]]
    ∧ split_streams_lines (([["codec_type=video"]].map renderBlock).join
        ++ "[STREAM]" :: ["x=1"]) = .ok [["codec_type=video"]] := by
  have h := split_streams_amended [["codec_type=video"]] ["x=1"] (by decide) (by decide)
  have e : blockResults [["codec_type=video"]] = [["codec_type=video"]] := by decide
  exact ⟨by rw [h.1, e], by rw [h.2.1, e]⟩
